import Mathlib

/-!
# thanosbench: series-set enumeration, sample generators and the append pipeline

A shallow embedding of `pkg/blockgen/blockgen.go` (`GenType.Create`,
`blockSeriesSet.Next/At/Err`, the series set built by `Generate`) and of
`pkg/seriesgen/append.go` (`Append` and its worker), followed by theorems about them.

Conventions.
* Go `int`/`int64` values are `Int`; the one place where wrap-around matters (the
  64-bit FNV-1a state and its conversion to `int64`) is written with explicit `% 2^64`.
* Go strings are `String`; their bytes are the UTF-8 encoding (`strBytes`).
* A Go `error` is a `GoError` (message plus the cause recorded by `%w`); `nil` is `none`.
* A call that would panic with an index out of range yields `none`.
-/

namespace Thanosbench

/-! ## Go runtime and library values used by the program -/

/-- A Go `error` value as built by `fmt.Errorf`: `leaf` carries only a message, `wrap` is an
error built with the `%w` verb and remembers the wrapped cause. -/
inductive GoError where
  | leaf (msg : String)
  | wrap (msg : String) (cause : GoError)
  deriving DecidableEq, Repr

/-- The text of an error, Go `err.Error()`. -/
def GoError.Error : GoError → String
  | .leaf m => m
  | .wrap m _ => m

/-- The cause recorded by `%w`, Go `errors.Unwrap(err)`. -/
def GoError.Unwrap : GoError → Option GoError
  | .leaf _ => none
  | .wrap _ c => some c

/-- The bytes of a Go string (UTF-8). -/
def strBytes (s : String) : List Nat := s.toUTF8.data.toList.map UInt8.toNat

/-- The text `fmt.Sprintf("%v", n)` produces for a Go `int`: its decimal digits, with a
leading minus sign for a negative number. -/
def Sprintf_v (n : Int) : String := toString n

/-- Indexing a Go slice with an `int`; `none` stands for the index-out-of-range panic. -/
def index {α : Type} (l : List α) (i : Int) : Option α :=
  if i < 0 then none else l[i.toNat]?

/-- The 64-bit FNV offset basis (`hash/fnv`). -/
def fnvOffset64 : Nat := 14695981039346656037

/-- The 64-bit FNV prime (`hash/fnv`). -/
def fnvPrime64 : Nat := 1099511628211

/-- The state of `fnv.New64a()` after `Write(b)` from state `h`: for every byte, xor it into
the state and multiply by the prime, modulo `2^64`. -/
def fnv64aWrite (h : Nat) (b : List Nat) : Nat :=
  b.foldl (fun acc c => ((acc ^^^ c) * fnvPrime64) % 2 ^ 64) h

/-- The value `h.Sum64()` after `h := fnv.New64a(); h.Write(b)`. -/
def Sum64a (b : List Nat) : Nat := fnv64aWrite fnvOffset64 b

/-- Go conversion `int64(x)` of a `uint64`: two's complement reinterpretation. -/
def toInt64 (x : Nat) : Int :=
  if x % 2 ^ 64 < 2 ^ 63 then ((x % 2 ^ 64 : Nat) : Int) else ((x % 2 ^ 64 : Nat) : Int) - 2 ^ 64

/-- A `*rand.Rand` built by `rand.New(rand.NewSource(seed))`, identified by its seed. -/
structure Rand where
  seed : Int
  deriving DecidableEq, Repr

/-! ## Labels (`github.com/prometheus/prometheus/model/labels`) -/

/-- One label, `labels.Label`. -/
structure Label where
  Name : String
  Value : String
  deriving DecidableEq, Repr

/-- A label list, `labels.Labels` (a slice of `Label`). -/
abbrev Labels := List Label

/-- Go string order `a < b`: lexicographic on bytes. -/
def strLt (a b : String) : Prop := strBytes a < strBytes b

instance (a b : String) : Decidable (strLt a b) := by
  unfold strLt; infer_instance

/-- A label list in canonical form: names strictly increasing (sorted by name, no
duplicate name). -/
def Labels.IsSortedUnique (ls : Labels) : Prop :=
  ls.Pairwise (fun a b => strLt a.Name b.Name)

instance (ls : Labels) : Decidable ls.IsSortedUnique := by
  unfold Labels.IsSortedUnique; infer_instance

/-- The label list `labels.FromMap(m)`: the entries of the map sorted by name.  The map is
given as its list of entries. -/
def FromMap (m : List (String × String)) : Labels :=
  (m.map (fun p => Label.mk p.1 p.2)).insertionSort
    (fun a b => strBytes a.Name ≤ strBytes b.Name)

/-! ## Generators and series of `pkg/seriesgen` -/

/-- Modelled from the spec: the type `seriesgen.Characteristics` is declared in a file of
`pkg/seriesgen` that is not among the sources.  The spec (section 3) gives its fields:
`ScrapeInterval` (duration between samples, here in milliseconds), `Jitter`, `Min`, `Max`.
The last three are floating point in the program; no function below computes with them,
they are only carried. -/
structure Characteristics where
  ScrapeInterval : Int
  Jitter : Int
  Min : Int
  Max : Int
  deriving DecidableEq, Repr

/-- Which of the three generator constructors built an iterator. -/
inductive GenKind where
  | val
  | counter
  | gauge
  deriving DecidableEq, Repr

/-- Modelled from the spec: the sample iterators built by `NewValGen`, `NewCounterGen` and
`NewGaugeGen`, whose file is not among the sources.  By the spec (section 4.1) an iterator
is made from a seeded random source, a time range and `Characteristics`; it yields one
sample per scrape tick, tick `i` lying at `MinTime + i * ScrapeInterval`, and the sequence
is bounded to `[MinTime, MaxTime)`.  `tick` counts the samples produced so far.  Sample
values and jitter (floating point) are not modelled. -/
structure SeriesIterator where
  kind : GenKind
  random : Rand
  mint : Int
  maxt : Int
  opts : Characteristics
  tick : Nat
  deriving DecidableEq, Repr

/-- Modelled from the spec: constructor of the random-value generator (section 4.1). -/
def NewValGen (random : Rand) (mint maxt : Int) (opts : Characteristics) : SeriesIterator :=
  { kind := .val, random := random, mint := mint, maxt := maxt, opts := opts, tick := 0 }

/-- Modelled from the spec: constructor of the counter generator (section 4.1). -/
def NewCounterGen (random : Rand) (mint maxt : Int) (opts : Characteristics) : SeriesIterator :=
  { kind := .counter, random := random, mint := mint, maxt := maxt, opts := opts, tick := 0 }

/-- Modelled from the spec: constructor of the gauge generator (section 4.1). -/
def NewGaugeGen (random : Rand) (mint maxt : Int) (opts : Characteristics) : SeriesIterator :=
  { kind := .gauge, random := random, mint := mint, maxt := maxt, opts := opts, tick := 0 }

/-- Modelled from the spec: `Next` of a generator (section 4.1 (a), (b) and section 3,
"bounded to `[MinTime, MaxTime)`"): there is a next sample exactly when the next scrape
tick `MinTime + tick * ScrapeInterval` lies before `MaxTime`. -/
def SeriesIterator.Next (g : SeriesIterator) : Bool × SeriesIterator :=
  if g.mint + (g.tick : Int) * g.opts.ScrapeInterval < g.maxt then
    (true, { g with tick := g.tick + 1 })
  else
    (false, g)

/-- The number of times `Next` returns true before it first returns false, calling it at
most `fuel` times; `none` when `fuel` calls all returned true. -/
def SeriesIterator.countSamples : Nat → SeriesIterator → Option Nat
  | 0, _ => none
  | fuel + 1, g =>
    match g.Next with
    | (false, _) => some 0
    | (true, g') => (countSamples fuel g').map (· + 1)

/-- Modelled from the spec: `seriesgen.Series` as built by `NewSeriesGen`, whose file is not
among the sources: it "binds a label set to a generator instance" (section 2). -/
structure Series where
  lset : Labels
  iter : SeriesIterator
  deriving DecidableEq, Repr

/-- Modelled from the spec: `NewSeriesGen(lset, iter)` wraps labels and iterator as a
`Series` (section 4.2). -/
def NewSeriesGen (lset : Labels) (iter : SeriesIterator) : Series :=
  { lset := lset, iter := iter }

/-- The label set of a series, `Series.Labels()`. -/
def Series.Labels (s : Series) : Labels := s.lset

/-- The sample iterator of a series, `Series.Iterator()`. -/
def Series.Iterator (s : Series) : SeriesIterator := s.iter

/-! ## `pkg/blockgen/blockgen.go` -/

/-- The generator type of a series spec, `type GenType string`. -/
structure GenType where
  val : String
  deriving DecidableEq, Repr

/-- The constant `Random`. -/
def Random : GenType := ⟨"RANDOM"⟩

/-- The constant `Counter`. -/
def Counter : GenType := ⟨"COUNTER"⟩

/-- The constant `Gauge`. -/
def Gauge : GenType := ⟨"GAUGE"⟩

/-- The method `GenType.Create`: a generator for the three known types, an error otherwise. -/
def GenType.Create (g : GenType) (random : Rand) (mint maxt : Int) (opts : Characteristics) :
    Except GoError SeriesIterator :=
  if g = Random then .ok (NewValGen random mint maxt opts)
  else if g = Counter then .ok (NewCounterGen random mint maxt opts)
  else if g = Gauge then .ok (NewGaugeGen random mint maxt opts)
  else .error (.leaf ("unknown generator type " ++ g.val))

/-- The type `SeriesSpec`. -/
structure SeriesSpec where
  Labels : List Label
  Targets : Int
  Type_ : GenType
  MinTime : Int
  MaxTime : Int
  Characteristics : Characteristics
  deriving DecidableEq, Repr

/-- The type `BlockSpec`: of the embedded `metadata.Meta` only the external labels
`Thanos.Labels` (a map, given as its entries) are read by the code below. -/
structure BlockSpec where
  ThanosLabels : List (String × String)
  Series : List SeriesSpec
  deriving DecidableEq, Repr

/-- The type `blockSeriesSet`.  `curr` is an interface value and starts out nil. -/
structure blockSeriesSet where
  config : BlockSpec
  extLset : Labels
  i : Int
  target : Int
  err : Option GoError
  curr : Option Series
  deriving DecidableEq, Repr

/-- The series set `Generate` builds (lines 79-83): `extLset` is `labels.FromMap` of the
block's external labels, every other field has its zero value. -/
def newBlockSeriesSet (block : BlockSpec) : blockSeriesSet :=
  { config := block, extLset := FromMap block.ThanosLabels, i := 0, target := 0,
    err := none, curr := none }

/-- The loop body of lines 131-136 and 137-142 of `Next`: append, for every label, its name,
the byte `0xff`, its value and the byte `0xff` to `b`. -/
def appendLabelBytes (b : List Nat) (ls : Labels) : List Nat :=
  ls.foldl (fun acc v => acc ++ strBytes v.Name ++ [0xff] ++ strBytes v.Value ++ [0xff]) b

/-- Lines 127-158 of `blockSeriesSet.Next`: build the labels, the seed and the generator of
the series at the current position `(i, target)`. -/
def blockSeriesSet.nextSeries (s : blockSeriesSet) : Option (Bool × blockSeriesSet) :=
  match index s.config.Series (s.i - 1) with
  | none => none
  | some series =>
    let lset : Labels := ⟨"__blockgen_target__", Sprintf_v s.target⟩ :: series.Labels
    let b := appendLabelBytes (appendLabelBytes [] lset) s.extLset
    match series.Type_.Create ⟨toInt64 (Sum64a b)⟩ series.MinTime series.MaxTime
        series.Characteristics with
    | .error err => some (false, { s with err := some err })
    | .ok iter => some (true, { s with curr := some (NewSeriesGen lset iter) })

/-- The method `blockSeriesSet.Next` (lines 114-159). -/
def blockSeriesSet.Next (s : blockSeriesSet) : Option (Bool × blockSeriesSet) :=
  let s1 := if s.target > 0 then { s with target := s.target - 1 } else s
  if s1.target ≤ 0 ∧ s1.i ≥ s1.config.Series.length then
    some (false, s1)
  else if s1.target ≤ 0 then
    match index s1.config.Series (s1.i + 1 - 1) with
    | none => none
    | some sp => blockSeriesSet.nextSeries { s1 with i := s1.i + 1, target := sp.Targets }
  else
    blockSeriesSet.nextSeries s1

/-- The method `blockSeriesSet.At`. -/
def blockSeriesSet.At (s : blockSeriesSet) : Option Series := s.curr

/-- The method `blockSeriesSet.Err`. -/
def blockSeriesSet.Err (s : blockSeriesSet) : Option GoError := s.err

/-- Drive a series set the way `Append` does (`for series.Next() { ... series.At() ... }`):
the values `At()` returned after each `Next() = true`, and the state in which `Next()` first
returned false.  `none` when `Next` panicked or `fuel` calls all returned true. -/
def blockSeriesSet.enumerate : Nat → blockSeriesSet → Option (List (Option Series) × blockSeriesSet)
  | 0, _ => none
  | fuel + 1, s =>
    match s.Next with
    | none => none
    | some (false, s') => some ([], s')
    | some (true, s') =>
      match enumerate fuel s' with
      | none => none
      | some (l, fin) => some (s'.At :: l, fin)

/-! ## Reference descriptions used in the statements -/

/-- The recognised generator types. -/
def GenType.known (g : GenType) : Prop := g = Random ∨ g = Counter ∨ g = Gauge

instance (g : GenType) : Decidable g.known := by
  unfold GenType.known; infer_instance

/-- The generator kind a recognised type stands for. -/
def GenType.kind (g : GenType) : GenKind :=
  if g = Random then .val else if g = Counter then .counter else .gauge

/-- The byte encoding of a label list as the specification words it: for every label in
order, its name, the byte `0xff`, its value, the byte `0xff`. -/
def labelBytes (ls : Labels) : List Nat :=
  ls.flatMap (fun v => strBytes v.Name ++ [0xff] ++ strBytes v.Value ++ [0xff])

/-- The seed the specification assigns to a series with label list `lset` in a block with
external labels `ext`: `int64` of the FNV-1a hash of the bytes of `lset` followed by `ext`. -/
def labelSeed (lset ext : Labels) : Int := toInt64 (Sum64a (labelBytes (lset ++ ext)))

/-- The label list of target `k` of a spec: the target label, then the base labels. -/
def targetLabels (sp : SeriesSpec) (k : Int) : Labels :=
  ⟨"__blockgen_target__", Sprintf_v k⟩ :: sp.Labels

/-- The series of target `k` of a spec of recognised type in a block with external labels
`ext`. -/
def seriesOf (ext : Labels) (sp : SeriesSpec) (k : Int) : Series :=
  { lset := targetLabels sp k,
    iter := { kind := sp.Type_.kind, random := ⟨labelSeed (targetLabels sp k) ext⟩,
              mint := sp.MinTime, maxt := sp.MaxTime, opts := sp.Characteristics, tick := 0 } }

/-- The numbers `n, n-1, ..., 1`. -/
def countdown : Nat → List Int
  | 0 => []
  | n + 1 => ((n : Int) + 1) :: countdown n

/-- The target values `Next` visits for a spec with `Targets = K`: `K, K-1, ..., 1` when
`K ≥ 1`, and the single value `K` when `K ≤ 0`. -/
def targetsVisited (K : Int) : List Int :=
  if K ≤ 0 then [K] else countdown K.toNat

/-- The series and final error of a whole enumeration, spec by spec: the series of every
spec up to the first one of unrecognised type, and the error that one raises. -/
def expand (ext : Labels) : List SeriesSpec → List Series × Option GoError
  | [] => ([], none)
  | sp :: rest =>
    if sp.Type_.known then
      ((targetsVisited sp.Targets).map (seriesOf ext sp) ++ (expand ext rest).1,
        (expand ext rest).2)
    else
      ([], some (.leaf ("unknown generator type " ++ sp.Type_.val)))

/-! ## `pkg/seriesgen/append.go` -/

/-- The error `context.Canceled`, which `gctx.Err()` returns once the group's context has
been cancelled. -/
def Canceled : GoError := .leaf "context canceled"

/-- One sample `(t, v)` of an iterator: timestamp in milliseconds and the bits of the
`float64` value. -/
structure Sample where
  t : Int
  v : Nat
  deriving DecidableEq, Repr

/-- What a worker observes of a `Series` it received: the result of `Labels()`, the samples
`At()` returns after each `Next() = true`, and the result of `Err()` once `Next()` returned
false. -/
structure SeriesData where
  labels : Labels
  samples : List Sample
  err : Option GoError
  deriving DecidableEq, Repr

/-- A call a worker made on its appender, with the error that call returned. -/
inductive Call where
  | append (ref : Nat) (lset : Labels) (t : Int) (v : Nat) (err : Option GoError)
  | rollback (err : Option GoError)
  | commit (err : Option GoError)
  deriving DecidableEq, Repr

/-- A `storage.Appender` (the handle `appendable.Appender(gctx)` returns) with internal
state `σ`: `Append` returns the new series reference and an error, `Rollback` and `Commit`
an error. -/
structure Appender (σ : Type) where
  Append : σ → Nat → Labels → Int → Nat → (Nat × Option GoError) × σ
  Rollback : σ → Option GoError × σ
  Commit : σ → Option GoError × σ

/-- What the environment presents to a worker at one pass through its `select`: the
context is done (with the value of `gctx.Err()`), the queue is closed, or a series
arrives.  With a series comes `cancel`: `some (j, e)` when the check `gctx.Err() != nil`
before sample number `j` (from 0) of that series finds the context cancelled with error
`e`, `none` when no check during that series does. -/
inductive Event where
  | done (e : GoError)
  | closed
  | recv (s : SeriesData) (cancel : Option (Nat × GoError))
  deriving DecidableEq, Repr

/-- The value of `gctx.Err()` at the check before sample number `j` of a series received
with `cancel`. -/
def ctxErr (cancel : Option (Nat × GoError)) (j : Nat) : Option GoError :=
  match cancel with
  | some (c, e) => if c = j then some e else none
  | none => none

/-- Lines 47-52: after `app.Append` returned `err` for the sample `smp`, roll back, put the
rollback's error (if any) into the message, and return the error wrapped with `append: `. -/
def failAppend {σ : Type} (app : Appender σ) (ref : Nat) (lset : Labels) (smp : Sample)
    (err : GoError) (st1 : σ) : Option GoError × σ × List Call :=
  match (app.Rollback st1).1 with
  | some rerr =>
    let err1 := GoError.wrap ("append: " ++ err.Error ++ ", rollback: " ++ rerr.Error) err
    (some (.wrap ("append: " ++ err1.Error) err1), (app.Rollback st1).2,
      [.append ref lset smp.t smp.v (some err), .rollback (some rerr)])
  | none =>
    (some (.wrap ("append: " ++ err.Error) err), (app.Rollback st1).2,
      [.append ref lset smp.t smp.v (some err), .rollback none])

/-- The loop `for iter.Next() { ... }` of a worker (lines 41-55), from sample number `j` with
series reference `ref`.  The result is `some err` when the worker function returns `err`
from inside the loop and `none` when the loop runs to its end, together with the state of
the appender and the calls made on it. -/
def sampleLoop {σ : Type} (app : Appender σ) (lset : Labels) (cancel : Option (Nat × GoError)) :
    List Sample → Nat → Nat → σ → Option GoError × σ × List Call
  | [], _, _, st => (none, st, [])
  | smp :: rest, j, ref, st =>
    match ctxErr cancel j with
    | some e => (some e, st, [])
    | none =>
      match (app.Append st ref lset smp.t smp.v).1.2 with
      | some err => failAppend app ref lset smp err (app.Append st ref lset smp.t smp.v).2
      | none =>
        let r := sampleLoop app lset cancel rest (j + 1)
          (app.Append st ref lset smp.t smp.v).1.1 (app.Append st ref lset smp.t smp.v).2
        (r.1, r.2.1, .append ref lset smp.t smp.v none :: r.2.2)

/-- Lines 57-62: after the iterator reported `err`, roll back, put the rollback's error (if
any) into the message, and return the error wrapped with `iter: `. -/
def failIter {σ : Type} (app : Appender σ) (err : GoError) (st1 : σ) :
    Option GoError × σ × List Call :=
  match (app.Rollback st1).1 with
  | some rerr =>
    let err1 := GoError.wrap ("iter: " ++ err.Error ++ ", rollback: " ++ rerr.Error) err
    (some (.wrap ("iter: " ++ err1.Error) err1), (app.Rollback st1).2, [.rollback (some rerr)])
  | none =>
    (some (.wrap ("iter: " ++ err.Error) err), (app.Rollback st1).2, [.rollback none])

/-- One pass of a worker's outer loop after it received the series `s` (lines 38-63): the
sample loop from reference 0, then the check of `iter.Err()`.  `some err` when the worker
function returns `err`, `none` when it goes back to its `select`. -/
def handleSeries {σ : Type} (app : Appender σ) (s : SeriesData)
    (cancel : Option (Nat × GoError)) (st : σ) : Option GoError × σ × List Call :=
  let r := sampleLoop app s.labels cancel s.samples 0 0 st
  match r.1 with
  | some e => (some e, r.2.1, r.2.2)
  | none =>
    match s.err with
    | none => (none, r.2.1, r.2.2)
    | some err =>
      let f := failIter app err r.2.1
      (f.1, f.2.1, r.2.2 ++ f.2.2)

/-- The outer `for { select ... }` loop of a worker (lines 29-63) against the events of its
environment.  The first component is `some r` when the worker function returns `r` (`none`
for nil) and `none` when the events end with the worker waiting in its `select`. -/
def workerLoop {σ : Type} (app : Appender σ) :
    List Event → σ → Option (Option GoError) × σ × List Call
  | [], st => (none, st, [])
  | .done e :: _, st => (some (some e), st, [])
  | .closed :: _, st => (some none, st, [])
  | .recv s cancel :: evs, st =>
    let h := handleSeries app s cancel st
    match h.1 with
    | some e => (some (some e), h.2.1, h.2.2)
    | none =>
      let r := workerLoop app evs h.2.1
      (r.1, r.2.1, h.2.2 ++ r.2.2)

/-- The worker function `g.Go` runs (lines 17-64): the outer loop, and when it returns, the
deferred `app.Commit()` whose error is dropped. -/
def worker {σ : Type} (app : Appender σ) (evs : List Event) (st : σ) :
    Option (Option GoError) × σ × List Call :=
  let w := workerLoop app evs st
  match w.1 with
  | none => (none, w.2.1, w.2.2)
  | some r => (some r, (app.Commit w.2.1).2, w.2.2 ++ [.commit (app.Commit w.2.1).1])

/-- The outcome of `Append` with one worker. -/
structure AppendResult (σ : Type) where
  /-- The error `Append` returns. -/
  ret : Option GoError
  /-- The number of sends `workBuffer <- series.At()` that completed. -/
  handed : Nat
  /-- The value the worker function returned. -/
  workerRet : Option GoError
  /-- The final state of the worker's appender. -/
  sink : σ
  /-- The calls made on the worker's appender. -/
  calls : List Call

/-- The function `Append` for `goroutines = 1` and a caller context that is never cancelled,
where the outcome does not depend on scheduling.  `series` are the values `series.At()`
returns after each `series.Next() = true`, `enumErr` is `series.Err()` after `Next()`
returned false.

The queue is unbuffered and the single worker is its only receiver, so the send of a series
completes exactly when the worker is back at its `select`; the group's context is cancelled
only when the worker returns a non-nil error, which it does only from `handleSeries`.  So:
* while the worker has not failed, each series is handed to it and handled;
* once the worker has failed, the next `select` of the coordinator (line 68) can only take
  `<-gctx.Done()` and `Append` returns `context done: ...` wrapping `gctx.Err()`;
* when `Next()` returns false the queue is closed, a worker still running returns nil, and
  `Append` returns `series.Err()` if that is non-nil and `g.Wait()`, the worker's result,
  otherwise.
In every case the worker's deferred `Commit` runs when it returns. -/
def Append1 {σ : Type} (app : Appender σ) (enumErr : Option GoError) :
    List SeriesData → σ → AppendResult σ
  | [], st =>
    { ret := (match enumErr with
              | some e => some e
              | none => none),
      handed := 0, workerRet := none, sink := (app.Commit st).2,
      calls := [.commit (app.Commit st).1] }
  | s :: rest, st =>
    let h := handleSeries app s none st
    match h.1 with
    | some e =>
      { ret := (match rest with
                | [] =>
                  (match enumErr with
                   | some e1 => some e1
                   | none => some e)
                | _ :: _ => some (.wrap ("context done: " ++ Canceled.Error) Canceled)),
        handed := 1, workerRet := some e, sink := (app.Commit h.2.1).2,
        calls := h.2.2 ++ [.commit (app.Commit h.2.1).1] }
    | none =>
      let r := Append1 app enumErr rest h.2.1
      { r with handed := r.handed + 1, calls := h.2.2 ++ r.calls }

/-! ## Vocabulary of the statements about workers -/

/-- The errors reachable from an error by repeated `Unwrap`, the error itself first. -/
def GoError.chain : GoError → List GoError
  | .leaf m => [.leaf m]
  | .wrap m c => .wrap m c :: chain c

/-- A call of `Commit`. -/
def Call.isCommit : Call → Bool
  | .commit _ => true
  | _ => false

/-- A call of `Rollback`. -/
def Call.isRollback : Call → Bool
  | .rollback _ => true
  | _ => false

/-- A call of `Append` that returned no error. -/
def Call.isGoodAppend : Call → Bool
  | .append _ _ _ _ none => true
  | _ => false

/-- The error a worker returns after a sink `Append` failed with `e` and the `Rollback` that
followed returned `rerr` (lines 47-52). -/
def appendFailure (e : GoError) (rerr : Option GoError) : GoError :=
  match rerr with
  | none => .wrap ("append: " ++ e.Error) e
  | some re =>
    .wrap ("append: " ++ ("append: " ++ e.Error ++ ", rollback: " ++ re.Error))
      (.wrap ("append: " ++ e.Error ++ ", rollback: " ++ re.Error) e)

/-- The error a worker returns after the iterator reported `e` and the `Rollback` that
followed returned `rerr` (lines 57-62). -/
def iterFailure (e : GoError) (rerr : Option GoError) : GoError :=
  match rerr with
  | none => .wrap ("iter: " ++ e.Error) e
  | some re =>
    .wrap ("iter: " ++ ("iter: " ++ e.Error ++ ", rollback: " ++ re.Error))
      (.wrap ("iter: " ++ e.Error ++ ", rollback: " ++ re.Error) e)

/-! ## Auxiliary definitions of the proofs -/

/-- Reading a list of decimal digit characters back as a number. -/
def readDigits (acc : Nat) (l : List Char) : Nat :=
  l.foldl (fun a c => a * 10 + (c.toNat - 48)) acc

/-- The value a worker's outer loop returns, as an error option: nil for a clean return or
for a loop still waiting. -/
def loopErr (r : Option (Option GoError)) : Option GoError :=
  match r with
  | some (some e) => some e
  | _ => none

/-- How a run of the sample loop, of one series, or of the outer loop can end: with good
appends only (`quiet`), or with a failed append or a failed iterator followed by the
rollback. -/
inductive RunShape : Option GoError → List Call → Prop where
  | quiet (r : Option GoError) (calls : List Call)
      (h : ∀ c ∈ calls, c.isGoodAppend = true) : RunShape r calls
  | appendFailed (pre : List Call) (ref : Nat) (lset : Labels) (t : Int) (v : Nat)
      (e : GoError) (rerr : Option GoError) (h : ∀ c ∈ pre, c.isGoodAppend = true) :
      RunShape (some (appendFailure e rerr))
        (pre ++ [.append ref lset t v (some e), .rollback rerr])
  | iterFailed (pre : List Call) (e : GoError) (rerr : Option GoError)
      (h : ∀ c ∈ pre, c.isGoodAppend = true) :
      RunShape (some (iterFailure e rerr)) (pre ++ [.rollback rerr])

/-! ## Concrete inputs used in the evaluations below -/

/-- An appender whose state counts the `Append` calls made so far and whose `Append` fails
with `boom` on call number `failAt` (from 0); `Rollback` fails with `rb` when `rbFails`. -/
def failingAppender (failAt : Nat) (rbFails : Bool) : Appender Nat where
  Append := fun n ref _ _ _ =>
    if n = failAt then ((ref, some (.leaf "boom")), n + 1) else ((ref + 1, none), n + 1)
  Rollback := fun n => (if rbFails then some (.leaf "rb") else none, n)
  Commit := fun n => (none, n)

/-- A series with two samples and a clean iterator. -/
def twoSamples (name : String) : SeriesData :=
  { labels := [⟨"__blockgen_target__", "1"⟩, ⟨"__name__", name⟩],
    samples := [⟨0, 1⟩, ⟨15000, 2⟩], err := none }

/-- The characteristics used by the tests of `pkg/seriesgen`: scrape interval 15 s, jitter
300, values between 100 and 400. -/
def testCharacteristics : Characteristics :=
  { ScrapeInterval := 15000, Jitter := 300, Min := 100, Max := 400 }

/-- A gauge spec with two targets and the base label `__name__="m"`. -/
def gaugeSpec : SeriesSpec :=
  { Labels := [⟨"__name__", "m"⟩], Targets := 2, Type_ := Gauge, MinTime := 0, MaxTime := 100,
    Characteristics := testCharacteristics }

/-- A block with the external label `cluster="one"` and the one spec `gaugeSpec`. -/
def clusterBlock : BlockSpec :=
  { ThanosLabels := [("cluster", "one")], Series := [gaugeSpec] }

/-- The state of the series set of `clusterBlock` after the first call of `Next`. -/
def clusterFirst : blockSeriesSet :=
  { config := clusterBlock, extLset := [⟨"cluster", "one"⟩], i := 1, target := 2, err := none,
    curr := some ⟨[⟨"__blockgen_target__", "2"⟩, ⟨"__name__", "m"⟩],
      ⟨.gauge, ⟨-4151409387447312040⟩, 0, 100, testCharacteristics, 0⟩⟩ }

/-- A block without external labels and one spec with `Targets = 0`. -/
def zeroTargetsBlock : BlockSpec :=
  { ThanosLabels := [],
    Series := [⟨[⟨"__name__", "m"⟩], 0, Random, 0, 100, testCharacteristics⟩] }

/-- A block whose only spec has the base label `__address__="x"` and one target. -/
def addressBlock : BlockSpec :=
  { ThanosLabels := [],
    Series := [⟨[⟨"__address__", "x"⟩], 1, Counter, 0, 100, testCharacteristics⟩] }

/-- A block with a spec of two targets followed by a spec of unknown type `HISTOGRAM`. -/
def histogramBlock : BlockSpec :=
  { ThanosLabels := [],
    Series := [⟨[⟨"__name__", "m"⟩], 2, Gauge, 0, 100, testCharacteristics⟩,
               ⟨[⟨"__name__", "h"⟩], 3, ⟨"HISTOGRAM"⟩, 0, 100, testCharacteristics⟩] }

/-! # Theorems -/

/-! ## Helper lemmas: one step of `Next` -/

theorem appendLabelBytes_eq (b : List Nat) (ls : Labels) :
    appendLabelBytes b ls = b ++ labelBytes ls := by
  induction ls generalizing b with
  | nil => simp [appendLabelBytes, labelBytes]
  | cons v vs ih =>
    have h := ih (b ++ strBytes v.Name ++ [0xff] ++ strBytes v.Value ++ [0xff])
    simp only [appendLabelBytes, List.foldl_cons] at h ⊢
    rw [h]
    simp [labelBytes, List.flatMap_cons, List.append_assoc]

theorem seed_eq (lset ext : Labels) :
    toInt64 (Sum64a (appendLabelBytes (appendLabelBytes [] lset) ext)) = labelSeed lset ext := by
  simp [appendLabelBytes_eq, labelSeed, labelBytes, List.flatMap_append]

theorem Create_known (g : GenType) (h : g.known) (r : Rand) (a b : Int) (o : Characteristics) :
    g.Create r a b o = .ok ⟨g.kind, r, a, b, o, 0⟩ := by
  unfold GenType.Create GenType.kind NewValGen NewCounterGen NewGaugeGen
  have h1 : ¬ (Counter = Random) := by decide
  have h2 : ¬ (Gauge = Random) := by decide
  have h3 : ¬ (Gauge = Counter) := by decide
  rcases h with h | h | h <;> subst h <;> simp [h1, h2, h3]

theorem Create_unknown (g : GenType) (h : ¬ g.known) (r : Rand) (a b : Int)
    (o : Characteristics) :
    g.Create r a b o = .error (.leaf ("unknown generator type " ++ g.val)) := by
  unfold GenType.known at h
  unfold GenType.Create
  simp only [not_or] at h
  simp [h.1, h.2.1, h.2.2]

theorem index_append_length {α : Type} (pre suf : List α) (x : α) :
    index (pre ++ x :: suf) ((pre.length : Int) + 1 - 1) = some x := by
  unfold index
  have h0 : ¬ ((pre.length : Int) + 1 - 1 < 0) := by omega
  have h1 : ((pre.length : Int) + 1 - 1).toNat = pre.length := by omega
  rw [if_neg h0, h1, List.getElem?_append_right (le_refl _)]
  simp

theorem nextSeries_known (s : blockSeriesSet) (pre suf : List SeriesSpec) (sp : SeriesSpec)
    (hc : s.config.Series = pre ++ sp :: suf) (hi : s.i = (pre.length : Int) + 1)
    (hk : sp.Type_.known) :
    s.nextSeries = some (true, { s with curr := some (seriesOf s.extLset sp s.target) }) := by
  unfold blockSeriesSet.nextSeries
  rw [hc, hi, index_append_length]
  simp only [seed_eq, Create_known _ hk]
  rfl

theorem nextSeries_unknown (s : blockSeriesSet) (pre suf : List SeriesSpec) (sp : SeriesSpec)
    (hc : s.config.Series = pre ++ sp :: suf) (hi : s.i = (pre.length : Int) + 1)
    (hk : ¬ sp.Type_.known) :
    s.nextSeries = some (false,
      { s with err := some (.leaf ("unknown generator type " ++ sp.Type_.val)) }) := by
  unfold blockSeriesSet.nextSeries
  rw [hc, hi, index_append_length]
  simp only [Create_unknown _ hk]

/-! ## Helper lemmas: the whole enumeration -/

theorem Next_inside (s : blockSeriesSet) (h : 2 ≤ s.target) :
    s.Next = blockSeriesSet.nextSeries { s with target := s.target - 1 } := by
  unfold blockSeriesSet.Next
  have h1 : s.target > 0 := by omega
  have h2 : ¬ (s.target - 1 ≤ 0) := by omega
  simp [h1, h2]

theorem Next_exhausted (s : blockSeriesSet) (h : s.target ≤ 1)
    (hi : s.i ≥ s.config.Series.length) :
    ∃ fin, s.Next = some (false, fin) ∧ fin.err = s.err ∧ fin.config = s.config ∧
      fin.extLset = s.extLset := by
  unfold blockSeriesSet.Next
  by_cases h1 : s.target > 0
  · have h2 : s.target - 1 ≤ 0 := by omega
    simp [h1, h2, hi]
  · have h2 : s.target ≤ 0 := by omega
    simp [h1, h2, hi]

theorem Next_advance (s : blockSeriesSet) (pre suf : List SeriesSpec) (sp : SeriesSpec)
    (hc : s.config.Series = pre ++ sp :: suf) (hi : s.i = (pre.length : Int))
    (h : s.target ≤ 1) :
    s.Next = blockSeriesSet.nextSeries
      ⟨s.config, s.extLset, (pre.length : Int) + 1, sp.Targets, s.err, s.curr⟩ := by
  unfold blockSeriesSet.Next
  have hlen : ¬ ((pre.length : Int) ≥ ((pre ++ sp :: suf).length : Nat)) := by
    simp only [List.length_append, List.length_cons]; push_cast; omega
  by_cases h1 : s.target > 0
  · have h2 : s.target - 1 ≤ 0 := by omega
    simp only [h1, if_true, h2, hc, hi, hlen, and_false, if_false, index_append_length]
  · have h2 : s.target ≤ 0 := by omega
    simp only [h1, if_false, h2, hc, hi, hlen, and_false, if_true, index_append_length]

theorem countdown_length (n : Nat) : (countdown n).length = n := by
  induction n with
  | zero => rfl
  | succ n ih => simp [countdown, ih]

theorem targetsVisited_eq (K : Int) : targetsVisited K = K :: countdown (K.toNat - 1) := by
  unfold targetsVisited
  by_cases h : K ≤ 0
  · have : K.toNat - 1 = 0 := by omega
    simp [h, this, countdown]
  · obtain ⟨n, hn⟩ : ∃ n : Nat, K = (n : Int) + 1 := ⟨(K - 1).toNat, by omega⟩
    subst hn
    have h1 : ((n : Int) + 1).toNat = n + 1 := by omega
    simp [h, h1, countdown]

/-- What the enumeration yields from a state in the middle of a spec, given what it yields
from the boundary after that spec. -/
theorem enumerate_inside (ext : Labels) (pre suf : List SeriesSpec) (sp : SeriesSpec)
    (hk : sp.Type_.known) (rest : List Series) (e : Option GoError)
    (hcont : ∀ s : blockSeriesSet, s.config.Series = pre ++ sp :: suf →
      s.i = (pre.length : Int) + 1 → s.target ≤ 1 → s.extLset = ext → s.err = none →
      ∀ fuel, rest.length < fuel →
        ∃ fin, s.enumerate fuel = some (rest.map some, fin) ∧ fin.err = e) :
    ∀ (n : Nat) (s : blockSeriesSet), s.target.toNat - 1 = n →
      s.config.Series = pre ++ sp :: suf → s.i = (pre.length : Int) + 1 →
      s.extLset = ext → s.err = none →
      ∀ fuel, n + rest.length < fuel →
        ∃ fin, s.enumerate fuel =
          some ((((countdown n).map (seriesOf ext sp)) ++ rest).map some, fin) ∧
          fin.err = e := by
  intro n
  induction n with
  | zero =>
    intro s ht hc hi hx he fuel hf
    have h1 : s.target ≤ 1 := by omega
    simpa [countdown] using hcont s hc hi h1 hx he fuel (by simpa using hf)
  | succ n ih =>
    intro s ht hc hi hx he fuel hf
    have h2 : 2 ≤ s.target := by omega
    obtain ⟨f, rfl⟩ : ∃ f, fuel = f + 1 := ⟨fuel - 1, by omega⟩
    have ht' : s.target - 1 = (n : Int) + 1 := by omega
    have hstep : s.Next = some (true, ⟨s.config, s.extLset, s.i, (n : Int) + 1, s.err,
        some (seriesOf ext sp ((n : Int) + 1))⟩) := by
      rw [Next_inside s h2, nextSeries_known ⟨s.config, s.extLset, s.i, s.target - 1, s.err,
        s.curr⟩ pre suf sp hc hi hk, hx, ht']
    obtain ⟨fin, hfin, herr⟩ := ih ⟨s.config, s.extLset, s.i, (n : Int) + 1, s.err,
        some (seriesOf ext sp ((n : Int) + 1))⟩ (by simp only; omega) hc hi hx he f
        (by omega)
    refine ⟨fin, ?_, herr⟩
    simp only [blockSeriesSet.enumerate, hstep, hfin, blockSeriesSet.At, countdown,
      List.map_cons, List.cons_append, List.map_append]

/-- The enumeration from a spec boundary: it yields `expand` of the remaining specs. -/
theorem enumerate_boundary (ext : Labels) (suf : List SeriesSpec) :
    ∀ (pre : List SeriesSpec) (s : blockSeriesSet), s.config.Series = pre ++ suf →
      s.i = (pre.length : Int) → s.target ≤ 1 → s.extLset = ext → s.err = none →
      ∀ fuel, (expand ext suf).1.length < fuel →
        ∃ fin, s.enumerate fuel = some ((expand ext suf).1.map some, fin) ∧
          fin.err = (expand ext suf).2 := by
  induction suf with
  | nil =>
    intro pre s hc hi ht hx he fuel hf
    obtain ⟨f, rfl⟩ : ∃ f, fuel = f + 1 := ⟨fuel - 1, by omega⟩
    have hge : s.i ≥ s.config.Series.length := by rw [hc, hi]; simp
    obtain ⟨fin, hn, hfe, _, _⟩ := Next_exhausted s ht hge
    refine ⟨fin, ?_, ?_⟩
    · simp [blockSeriesSet.enumerate, hn, expand]
    · simp [expand, hfe, he]
  | cons sp suf ih =>
    intro pre s hc hi ht hx he fuel hf
    obtain ⟨f, rfl⟩ : ∃ f, fuel = f + 1 := ⟨fuel - 1, by omega⟩
    have hn := Next_advance s pre suf sp hc hi ht
    by_cases hk : sp.Type_.known
    · have hstep : s.Next = some (true, ⟨s.config, s.extLset, (pre.length : Int) + 1,
          sp.Targets, s.err, some (seriesOf ext sp sp.Targets)⟩) := by
        rw [hn, nextSeries_known ⟨s.config, s.extLset, (pre.length : Int) + 1,
          sp.Targets, s.err, s.curr⟩ pre suf sp hc rfl hk, hx]
      have hcont : ∀ t : blockSeriesSet, t.config.Series = pre ++ sp :: suf →
          t.i = (pre.length : Int) + 1 → t.target ≤ 1 → t.extLset = ext → t.err = none →
          ∀ fuel, (expand ext suf).1.length < fuel →
            ∃ fin, t.enumerate fuel = some ((expand ext suf).1.map some, fin) ∧
              fin.err = (expand ext suf).2 := by
        intro t htc hti htt htx hte fuel hfu
        exact ih (pre ++ [sp]) t (by simpa using htc) (by simpa using hti) htt htx hte fuel hfu
      have hlen : (expand ext (sp :: suf)).1.length =
          (sp.Targets.toNat - 1) + (expand ext suf).1.length + 1 := by
        simp only [expand, hk, if_true, targetsVisited_eq, List.length_append,
          List.length_map, List.length_cons, countdown_length]; omega
      obtain ⟨fin, hfin, herr⟩ := enumerate_inside ext pre suf sp hk _ _ hcont
        (sp.Targets.toNat - 1) ⟨s.config, s.extLset, (pre.length : Int) + 1,
          sp.Targets, s.err, some (seriesOf ext sp sp.Targets)⟩
        rfl hc rfl hx he f (by omega)
      refine ⟨fin, ?_, ?_⟩
      · simp only [blockSeriesSet.enumerate, hstep, hfin, blockSeriesSet.At, expand, hk,
          if_true, targetsVisited_eq, List.map_cons, List.cons_append, List.map_append]
      · simp [expand, hk, herr]
    · have hstep : s.Next = some (false, ⟨s.config, s.extLset, (pre.length : Int) + 1,
          sp.Targets, some (.leaf ("unknown generator type " ++ sp.Type_.val)), s.curr⟩) := by
        rw [hn, nextSeries_unknown ⟨s.config, s.extLset, (pre.length : Int) + 1,
          sp.Targets, s.err, s.curr⟩ pre suf sp hc rfl hk]
      refine ⟨⟨s.config, s.extLset, (pre.length : Int) + 1, sp.Targets,
        some (.leaf ("unknown generator type " ++ sp.Type_.val)), s.curr⟩, ?_, ?_⟩
      · simp only [blockSeriesSet.enumerate, hstep, expand, hk, if_false, List.map_nil]
      · simp [expand, hk]

/-! ## Helper lemmas: decimal text is injective -/

theorem digitChar_value (m : Nat) (h : m < 10) : (Nat.digitChar m).toNat - 48 = m := by
  interval_cases m <;> rfl

theorem readDigits_toDigitsCore (fuel : Nat) :
    ∀ (n : Nat) (ds : List Char), n < fuel →
      readDigits 0 (Nat.toDigitsCore 10 fuel n ds) = readDigits n ds := by
  induction fuel with
  | zero => intro n ds h; omega
  | succ fuel ih =>
    intro n ds h
    unfold Nat.toDigitsCore
    by_cases h0 : n / 10 = 0
    · have hn : n % 10 = n := Nat.mod_eq_of_lt (by omega)
      simp only [h0, if_true]
      unfold readDigits
      simp only [List.foldl_cons, Nat.zero_mul, Nat.zero_add]
      rw [digitChar_value _ (Nat.mod_lt _ (by decide)), hn]
    · simp only [h0, if_false]
      rw [ih (n / 10) _ (by omega)]
      unfold readDigits
      simp only [List.foldl_cons]
      rw [digitChar_value _ (Nat.mod_lt _ (by decide))]
      congr 1
      omega

theorem Nat_repr_injective (a b : Nat) (h : Nat.repr a = Nat.repr b) : a = b := by
  have h1 : Nat.toDigits 10 a = Nat.toDigits 10 b := by
    have := congrArg String.data h
    simpa [Nat.repr] using this
  have ha := readDigits_toDigitsCore (a + 1) a [] (by omega)
  have hb := readDigits_toDigitsCore (b + 1) b [] (by omega)
  unfold Nat.toDigits at h1
  rw [h1, hb] at ha
  simpa [readDigits] using ha.symm

theorem Sprintf_v_injective (a b : Nat) (h : Sprintf_v (a : Int) = Sprintf_v (b : Int)) :
    a = b :=
  Nat_repr_injective a b h

theorem mem_countdown (n : Nat) (k : Int) : k ∈ countdown n ↔ 1 ≤ k ∧ k ≤ n := by
  induction n with
  | zero => simp [countdown]; omega
  | succ n ih => simp only [countdown, List.mem_cons, ih]; push_cast; omega

theorem countdown_nodup (n : Nat) : (countdown n).Nodup := by
  induction n with
  | zero => simp [countdown]
  | succ n ih =>
    simp only [countdown, List.nodup_cons]
    refine ⟨?_, ih⟩
    rw [mem_countdown]
    omega

theorem countdown_getElem? (n j : Nat) (h : j < n) :
    (countdown n)[j]? = some ((n : Int) - j) := by
  induction n generalizing j with
  | zero => omega
  | succ n ih =>
    cases j with
    | zero => simp [countdown]
    | succ j =>
      simp only [countdown, List.getElem?_cons_succ]
      rw [ih j (by omega)]
      push_cast
      congr 1
      omega

theorem targetLabels_injective (sp : SeriesSpec) (n : Nat) :
    ∀ a ∈ countdown n, ∀ b ∈ countdown n, targetLabels sp a = targetLabels sp b → a = b := by
  intro a ha b hb h
  rw [mem_countdown] at ha hb
  obtain ⟨x, rfl⟩ : ∃ x : Nat, a = (x : Int) := ⟨a.toNat, by omega⟩
  obtain ⟨y, rfl⟩ : ∃ y : Nat, b = (y : Int) := ⟨b.toNat, by omega⟩
  simp only [targetLabels, List.cons.injEq, Label.mk.injEq, true_and, and_true] at h
  rw [Sprintf_v_injective x y h]

/-! ## Helper lemmas: `expand` -/

theorem expand_known (ext : Labels) (cfg : List SeriesSpec)
    (h : ∀ sp ∈ cfg, sp.Type_.known) :
    expand ext cfg =
      (cfg.flatMap (fun sp => (targetsVisited sp.Targets).map (seriesOf ext sp)), none) := by
  induction cfg with
  | nil => simp [expand]
  | cons sp cfg ih =>
    have h1 := ih (fun x hx => h x (List.mem_cons_of_mem _ hx))
    simp [expand, h sp (List.mem_cons_self _ _), h1, List.flatMap_cons]

theorem expand_unknown (ext : Labels) (pre suf : List SeriesSpec) (sp : SeriesSpec)
    (h : ∀ x ∈ pre, x.Type_.known) (hsp : ¬ sp.Type_.known) :
    expand ext (pre ++ sp :: suf) =
      (pre.flatMap (fun x => (targetsVisited x.Targets).map (seriesOf ext x)),
        some (.leaf ("unknown generator type " ++ sp.Type_.val))) := by
  induction pre with
  | nil => simp [expand, hsp]
  | cons x pre ih =>
    have h1 := ih (fun y hy => h y (List.mem_cons_of_mem _ hy))
    simp [expand, h x (List.mem_cons_self _ _), h1, List.flatMap_cons]

theorem mem_expand (ext : Labels) (cfg : List SeriesSpec) (x : Series)
    (h : x ∈ (expand ext cfg).1) :
    ∃ sp ∈ cfg, ∃ k, x = seriesOf ext sp k := by
  induction cfg with
  | nil => simp [expand] at h
  | cons sp cfg ih =>
    unfold expand at h
    by_cases hk : sp.Type_.known
    · simp only [hk, if_true, List.mem_append, List.mem_map] at h
      rcases h with ⟨k, _, rfl⟩ | h
      · exact ⟨sp, List.mem_cons_self _ _, k, rfl⟩
      · obtain ⟨sp', hm, k, rfl⟩ := ih h
        exact ⟨sp', List.mem_cons_of_mem _ hm, k, rfl⟩
    · simp [hk] at h

/-- The enumeration of a whole block from the initial state. -/
theorem enumerate_initial (b : BlockSpec) (ext : Labels) (fuel : Nat)
    (hf : (expand ext b.Series).1.length < fuel) :
    ∃ fin, blockSeriesSet.enumerate fuel ⟨b, ext, 0, 0, none, none⟩ =
        some ((expand ext b.Series).1.map some, fin) ∧
      fin.err = (expand ext b.Series).2 :=
  enumerate_boundary ext b.Series [] ⟨b, ext, 0, 0, none, none⟩ rfl rfl (by simp) rfl rfl
    fuel hf

/-! ## Helper lemmas: a single successful `Next` -/

theorem nextSeries_true (s s' : blockSeriesSet) (h : s.nextSeries = some (true, s')) :
    ∃ sp, index s.config.Series (s.i - 1) = some sp ∧
      s' = { s with curr := some (seriesOf s.extLset sp s.target) } := by
  unfold blockSeriesSet.nextSeries at h
  cases hi : index s.config.Series (s.i - 1) with
  | none => simp [hi] at h
  | some sp =>
    refine ⟨sp, rfl, ?_⟩
    simp only [hi, seed_eq] at h
    by_cases hk : sp.Type_.known
    · simp only [Create_known _ hk, Option.some.injEq, Prod.mk.injEq, true_and] at h
      rw [← h]; rfl
    · simp [Create_unknown _ hk] at h

theorem Next_true_via (s s' : blockSeriesSet) (h : s.Next = some (true, s')) :
    ∃ s2 : blockSeriesSet, s2.nextSeries = some (true, s') ∧ s2.config = s.config ∧
      s2.extLset = s.extLset := by
  unfold blockSeriesSet.Next at h
  by_cases h1 : s.target > 0
  · simp only [h1, if_true] at h
    by_cases h2 : s.target - 1 ≤ 0 ∧ s.i ≥ (s.config.Series.length : Int)
    · simp [h2] at h
    · simp only [h2, if_false] at h
      by_cases h3 : s.target - 1 ≤ 0
      · simp only [h3, if_true] at h
        split at h
        · simp at h
        · exact ⟨_, h, rfl, rfl⟩
      · simp only [h3, if_false] at h
        exact ⟨_, h, rfl, rfl⟩
  · simp only [h1, if_false] at h
    by_cases h2 : s.target ≤ 0 ∧ s.i ≥ (s.config.Series.length : Int)
    · simp [h2] at h
    · simp only [h2, if_false] at h
      by_cases h3 : s.target ≤ 0
      · simp only [h3, if_true] at h
        split at h
        · simp at h
        · exact ⟨_, h, rfl, rfl⟩
      · simp only [h3, if_false] at h
        exact ⟨_, h, rfl, rfl⟩

/-- After a `Next` that returned true, the current series is the series of the spec at
position `i - 1` for the current target, seeded from its labels and the external labels. -/
theorem Next_true (s s' : blockSeriesSet) (h : s.Next = some (true, s')) :
    ∃ sp, index s'.config.Series (s'.i - 1) = some sp ∧
      s'.At = some (seriesOf s.extLset sp s'.target) ∧ s'.config = s.config ∧
      s'.extLset = s.extLset := by
  obtain ⟨s2, h2, hc, hx⟩ := Next_true_via s s' h
  obtain ⟨sp, hsp, rfl⟩ := nextSeries_true _ _ h2
  exact ⟨sp, hsp, by rw [← hx]; rfl, hc, hx⟩

/-! ## Series-set enumeration -/

theorem expand_valid (ext : Labels) (cfg : List SeriesSpec)
    (h : ∀ sp ∈ cfg, 1 ≤ sp.Targets ∧ sp.Type_.known) :
    (expand ext cfg).1.map some =
      cfg.flatMap (fun sp => (countdown sp.Targets.toNat).map (fun k => some (seriesOf ext sp k))) ∧
    (expand ext cfg).2 = none ∧
    ((expand ext cfg).1.length : Int) = (cfg.map SeriesSpec.Targets).sum := by
  induction cfg with
  | nil => simp [expand]
  | cons sp cfg ih =>
    obtain ⟨h1, h2, h3⟩ := ih (fun x hx => h x (List.mem_cons_of_mem _ hx))
    obtain ⟨ht, hk⟩ := h sp (List.mem_cons_self _ _)
    have hv : targetsVisited sp.Targets = countdown sp.Targets.toNat := by
      unfold targetsVisited
      rw [if_neg (by omega)]
    refine ⟨?_, ?_, ?_⟩
    · simp only [expand, hk, if_true, List.map_append, h1, List.flatMap_cons, hv, List.map_map]
      rfl
    · simp [expand, hk, h2]
    · simp only [expand, hk, if_true, List.length_append, List.length_map, hv,
        countdown_length, List.map_cons, List.sum_cons]
      push_cast
      rw [h3]
      omega

/-- C1: for a block whose specs all have `Targets ≥ 1` and a known type, `Next` called from
the initial state returns true exactly (sum of `Targets`) times and then false, without
error; the series come spec by spec, a spec with `Targets = K` contributing the series of
the targets `K, K-1, ..., 1` in that order; the series number `j` (from 0) of a spec has the
label list `__blockgen_target__ = decimal (K - j)` followed by the base labels; and the
label lists of one spec are pairwise distinct. -/
theorem targets_expansion (b : BlockSpec) (ext : Labels)
    (h : ∀ sp ∈ b.Series, 1 ≤ sp.Targets ∧ sp.Type_.known) :
    ∃ fin,
      blockSeriesSet.enumerate ((b.Series.map SeriesSpec.Targets).sum.toNat + 1)
          ⟨b, ext, 0, 0, none, none⟩ =
        some (b.Series.flatMap (fun sp =>
          (countdown sp.Targets.toNat).map (fun k => some (seriesOf ext sp k))), fin) ∧
      fin.Err = none ∧
      ((b.Series.flatMap (fun sp =>
          (countdown sp.Targets.toNat).map (fun k => some (seriesOf ext sp k)))).length : Int) =
        (b.Series.map SeriesSpec.Targets).sum ∧
      (∀ sp ∈ b.Series, ∀ j : Nat, j < sp.Targets.toNat →
        ((countdown sp.Targets.toNat).map (fun k => (seriesOf ext sp k).Labels))[j]? =
          some (⟨"__blockgen_target__", Sprintf_v (sp.Targets - j)⟩ :: sp.Labels)) ∧
      (∀ sp ∈ b.Series,
        ((countdown sp.Targets.toNat).map (fun k => (seriesOf ext sp k).Labels)).Nodup) := by
  obtain ⟨h1, h2, h3⟩ := expand_valid ext b.Series h
  obtain ⟨fin, hfin, herr⟩ := enumerate_initial b ext
    ((b.Series.map SeriesSpec.Targets).sum.toNat + 1) (by omega)
  refine ⟨fin, ?_, ?_, ?_, ?_, ?_⟩
  · rw [hfin, h1]
  · simp [blockSeriesSet.Err, herr, h2]
  · rw [← h1, List.length_map, h3]
  · intro sp hsp j hj
    have hK : ((sp.Targets.toNat : Nat) : Int) = sp.Targets := by
      have := (h sp hsp).1; omega
    rw [List.getElem?_map, countdown_getElem? _ _ hj, hK]
    rfl
  · intro sp _
    exact List.Nodup.map_on (targetLabels_injective sp _) (countdown_nodup _)

/-- Witness of `targets_expansion`: the block `clusterBlock`, one spec with two targets. -/
theorem targets_expansion_witness :
    (∀ sp ∈ clusterBlock.Series, 1 ≤ sp.Targets ∧ sp.Type_.known) ∧
    ∃ fin,
      blockSeriesSet.enumerate 3 ⟨clusterBlock, [⟨"cluster", "one"⟩], 0, 0, none, none⟩ =
        some ([some (seriesOf [⟨"cluster", "one"⟩] gaugeSpec 2),
               some (seriesOf [⟨"cluster", "one"⟩] gaugeSpec 1)], fin) ∧
      fin.Err = none :=
  ⟨by decide,
    (targets_expansion clusterBlock [⟨"cluster", "one"⟩] (by decide)).imp
      (fun _ hf => ⟨hf.1, hf.2.1⟩)⟩

/-- C2: the seed of every series `Next` emits is `int64` of the FNV-1a hash of the bytes
name, `0xff`, value, `0xff` of every label of the series (target label, then base labels)
followed by every external label; hence two emitted series with equal label lists, in series
sets with equal external labels, have equal seeds, whatever the block, position, time range,
type or characteristics. -/
theorem seed_from_label_bytes :
    (∀ s s' : blockSeriesSet, s.Next = some (true, s') →
      ∃ sp ser, index s'.config.Series (s'.i - 1) = some sp ∧ s'.At = some ser ∧
        ser.Labels = ⟨"__blockgen_target__", Sprintf_v s'.target⟩ :: sp.Labels ∧
        ser.Iterator.random.seed = toInt64 (Sum64a (labelBytes (ser.Labels ++ s.extLset)))) ∧
    (∀ (s1 s1' s2 s2' : blockSeriesSet) (ser1 ser2 : Series),
      s1.Next = some (true, s1') → s2.Next = some (true, s2') →
      s1'.At = some ser1 → s2'.At = some ser2 →
      ser1.Labels = ser2.Labels → s1.extLset = s2.extLset →
      ser1.Iterator.random.seed = ser2.Iterator.random.seed) := by
  have key : ∀ s s' : blockSeriesSet, s.Next = some (true, s') → ∀ ser, s'.At = some ser →
      ser.Iterator.random.seed = labelSeed ser.Labels s.extLset := by
    intro s s' h ser hser
    obtain ⟨sp, _, hat, _, _⟩ := Next_true s s' h
    rw [hat] at hser
    simp only [Option.some.injEq] at hser
    rw [← hser]
    rfl
  refine ⟨?_, ?_⟩
  · intro s s' h
    obtain ⟨sp, hsp, hat, _, _⟩ := Next_true s s' h
    exact ⟨sp, _, hsp, hat, rfl, rfl⟩
  · intro s1 s1' s2 s2' ser1 ser2 h1 h2 ha1 ha2 hl hx
    rw [key s1 s1' h1 ser1 ha1, key s2 s2' h2 ser2 ha2, hl, hx]

set_option maxRecDepth 20000 in
/-- Witness of `seed_from_label_bytes`: the first series of `clusterBlock`; its seed is the
FNV-1a hash of `__blockgen_target__ 0xff 2 0xff __name__ 0xff m 0xff cluster 0xff one 0xff`. -/
theorem seed_from_label_bytes_witness :
    (newBlockSeriesSet clusterBlock).Next = some (true, clusterFirst) ∧
    ∃ sp ser,
      index clusterFirst.config.Series (clusterFirst.i - 1) = some sp ∧
      clusterFirst.At = some ser ∧
      ser.Labels = ⟨"__blockgen_target__", Sprintf_v clusterFirst.target⟩ :: sp.Labels ∧
      ser.Iterator.random.seed =
        toInt64 (Sum64a (labelBytes (ser.Labels ++ (newBlockSeriesSet clusterBlock).extLset))) :=
  ⟨by decide, seed_from_label_bytes.1 (newBlockSeriesSet clusterBlock) clusterFirst (by decide)⟩

/-- C4: `GenType.Create` returns an error exactly for a type other than `RANDOM`, `COUNTER`,
`GAUGE`.  For every block: when every spec has a known type the enumeration ends with
`Next() = false` and `Err() = nil`; when `sp` is the first spec of unknown type, `Next`
returns true exactly for the series that enumerating the specs before `sp` alone yields
(without error), and then returns false with `Err() ≠ nil`, so no series of `sp` is emitted. -/
theorem enumeration_error_distinguishable (b : BlockSpec) (ext : Labels) :
    (∀ (g : GenType) (r : Rand) (mint maxt : Int) (o : Characteristics),
      (∃ e, g.Create r mint maxt o = .error e) ↔ ¬ (g = Random ∨ g = Counter ∨ g = Gauge)) ∧
    ((∀ sp ∈ b.Series, sp.Type_.known) →
      ∃ fuel l fin, blockSeriesSet.enumerate fuel ⟨b, ext, 0, 0, none, none⟩ = some (l, fin) ∧
        fin.Err = none) ∧
    (∀ pre sp suf, b.Series = pre ++ sp :: suf → (∀ x ∈ pre, x.Type_.known) →
      ¬ sp.Type_.known →
      ∃ fuel l fin fin',
        blockSeriesSet.enumerate fuel ⟨b, ext, 0, 0, none, none⟩ = some (l, fin) ∧
        fin.Err ≠ none ∧
        blockSeriesSet.enumerate fuel ⟨{ b with Series := pre }, ext, 0, 0, none, none⟩ =
          some (l, fin') ∧
        fin'.Err = none ∧
        l = pre.flatMap (fun x =>
          (targetsVisited x.Targets).map (fun k => some (seriesOf ext x k)))) := by
  refine ⟨?_, ?_, ?_⟩
  · intro g r mint maxt o
    constructor
    · rintro ⟨e, he⟩ hk
      rw [Create_known g hk] at he
      exact absurd he (by simp)
    · intro hk
      exact ⟨_, Create_unknown g hk r mint maxt o⟩
  · intro hk
    obtain ⟨fin, hfin, herr⟩ := enumerate_initial b ext _ (Nat.lt_succ_self _)
    refine ⟨_, _, fin, hfin, ?_⟩
    simp [blockSeriesSet.Err, herr, expand_known ext b.Series hk]
  · intro pre sp suf hb hpre hsp
    have e1 := expand_unknown ext pre suf sp hpre hsp
    have e2 := expand_known ext pre hpre
    have hlen : (expand ext b.Series).1.length = (expand ext pre).1.length := by
      rw [hb, e1, e2]
    obtain ⟨fin, hfin, herr⟩ := enumerate_initial b ext
      ((expand ext b.Series).1.length + 1) (Nat.lt_succ_self _)
    obtain ⟨fin', hfin', herr'⟩ := enumerate_initial { b with Series := pre } ext
      ((expand ext b.Series).1.length + 1) (by simp only [hlen]; omega)
    refine ⟨_, _, fin, fin', hfin, ?_, ?_, ?_, ?_⟩
    · simp [blockSeriesSet.Err, herr, hb, e1]
    · rw [hfin']
      simp only [hb, e1, e2]
    · simp [blockSeriesSet.Err, herr', e2]
    · rw [hb, e1]
      simp only [List.map_flatMap, List.map_map]
      rfl

/-- Witness of `enumeration_error_distinguishable`: in `histogramBlock` the second spec has
the unknown type `HISTOGRAM`; the two series of the first spec are emitted, then `Next`
returns false with the error set. -/
theorem enumeration_error_distinguishable_witness :
    ∃ fuel l fin fin',
      blockSeriesSet.enumerate fuel ⟨histogramBlock, [], 0, 0, none, none⟩ = some (l, fin) ∧
      fin.Err ≠ none ∧
      blockSeriesSet.enumerate fuel
          ⟨{ histogramBlock with Series := [gaugeSpec] }, [], 0, 0, none, none⟩ =
        some (l, fin') ∧
      fin'.Err = none ∧
      l = [gaugeSpec].flatMap (fun x =>
        (targetsVisited x.Targets).map (fun k => some (seriesOf [] x k))) :=
  (enumeration_error_distinguishable histogramBlock []).2.2 [gaugeSpec]
    ⟨[⟨"__name__", "h"⟩], 3, ⟨"HISTOGRAM"⟩, 0, 100, testCharacteristics⟩ [] (by decide)
    (by decide) (by decide)

/-- C5 (evaluation at the failing input): for `zeroTargetsBlock`, whose only spec has
`Targets = 0`, `Next` returns true once, with a series of that spec labelled
`__blockgen_target__="0"`, then false, and `Err()` is nil. -/
theorem zero_targets_emits_one_series :
    (blockSeriesSet.enumerate 2 (newBlockSeriesSet zeroTargetsBlock)).map
        (fun r => (r.1.map (Option.map Series.Labels), r.2.Err)) =
      some ([some [⟨"__blockgen_target__", "0"⟩, ⟨"__name__", "m"⟩]], none) := by
  decide

/-- C6 (counterexample): `clusterBlock` has the external label `cluster="one"`; enumerating
the series set `Generate` builds for it yields two series whose label sets are
`__blockgen_target__, __name__`, and neither contains a label named `cluster`. -/
theorem external_labels_not_merged :
    ("cluster", "one") ∈ clusterBlock.ThanosLabels ∧
    (blockSeriesSet.enumerate 3 (newBlockSeriesSet clusterBlock)).map
        (fun r => r.1.map (Option.map Series.Labels)) =
      some [some [⟨"__blockgen_target__", "2"⟩, ⟨"__name__", "m"⟩],
            some [⟨"__blockgen_target__", "1"⟩, ⟨"__name__", "m"⟩]] ∧
    (∀ l ∈ [Label.mk "__blockgen_target__" "2", ⟨"__name__", "m"⟩], l.Name ≠ "cluster") ∧
    (∀ l ∈ [Label.mk "__blockgen_target__" "1", ⟨"__name__", "m"⟩], l.Name ≠ "cluster") := by
  decide

/-- C6 (amended): every series emitted when enumerating the series set `Generate` builds for
a block has as label set exactly the label `__blockgen_target__` followed by the base labels
of one of the block's specs; the block's external labels are not merged into it and enter
the series only through its seed, the hash of the series' labels followed by the external
labels. -/
theorem emitted_labels_are_target_and_base (b : BlockSpec) :
    ∃ fuel l fin,
      blockSeriesSet.enumerate fuel (newBlockSeriesSet b) = some (l, fin) ∧
      ∀ x ∈ l, ∃ sp ∈ b.Series, ∃ k ser, x = some ser ∧
        ser.Labels = ⟨"__blockgen_target__", Sprintf_v k⟩ :: sp.Labels ∧
        ser.Iterator.random.seed =
          toInt64 (Sum64a (labelBytes (ser.Labels ++ FromMap b.ThanosLabels))) := by
  obtain ⟨fin, hfin, _⟩ := enumerate_initial b (FromMap b.ThanosLabels) _ (Nat.lt_succ_self _)
  refine ⟨_, _, fin, hfin, ?_⟩
  intro x hx
  obtain ⟨ser, hser, rfl⟩ := List.mem_map.1 hx
  obtain ⟨sp, hsp, k, rfl⟩ := mem_expand _ _ _ hser
  exact ⟨sp, hsp, k, _, rfl, rfl, rfl⟩

/-- C10 (counterexample): the base labels of the spec of `addressBlock` are sorted with
unique names, but the label set of the series emitted for it, `__blockgen_target__` followed
by `__address__`, is not sorted by name. -/
theorem emitted_labels_unsorted :
    Labels.IsSortedUnique [⟨"__address__", "x"⟩] ∧
    (blockSeriesSet.enumerate 2 (newBlockSeriesSet addressBlock)).map
        (fun r => r.1.map (Option.map Series.Labels)) =
      some [some [⟨"__blockgen_target__", "1"⟩, ⟨"__address__", "x"⟩]] ∧
    ¬ Labels.IsSortedUnique [⟨"__blockgen_target__", "1"⟩, ⟨"__address__", "x"⟩] := by
  decide

/-- C10 (amended): the label set of a series `Next` emits for a spec is sorted by name with
unique names exactly when the spec's base labels are and every base label name is greater
than `__blockgen_target__` in byte order. -/
theorem emitted_labels_sorted_iff (s s' : blockSeriesSet) (sp : SeriesSpec) (ser : Series)
    (h : s.Next = some (true, s')) (hsp : index s'.config.Series (s'.i - 1) = some sp)
    (hser : s'.At = some ser) :
    Labels.IsSortedUnique ser.Labels ↔
      (Labels.IsSortedUnique sp.Labels ∧
        ∀ l ∈ sp.Labels, strLt "__blockgen_target__" l.Name) := by
  obtain ⟨sp', hsp', hat, _, _⟩ := Next_true s s' h
  rw [hsp] at hsp'
  simp only [Option.some.injEq] at hsp'
  subst hsp'
  rw [hat] at hser
  simp only [Option.some.injEq] at hser
  subst hser
  show Labels.IsSortedUnique (targetLabels sp s'.target) ↔ _
  unfold Labels.IsSortedUnique targetLabels
  rw [List.pairwise_cons]
  exact And.comm

set_option maxRecDepth 20000 in
/-- Witness of `emitted_labels_sorted_iff`: the first series of `clusterBlock`. -/
theorem emitted_labels_sorted_iff_witness :
    (newBlockSeriesSet clusterBlock).Next = some (true, clusterFirst) ∧
    (Labels.IsSortedUnique (Series.mk [⟨"__blockgen_target__", "2"⟩, ⟨"__name__", "m"⟩]
        ⟨.gauge, ⟨-4151409387447312040⟩, 0, 100, testCharacteristics, 0⟩).Labels ↔
      (Labels.IsSortedUnique gaugeSpec.Labels ∧
        ∀ l ∈ gaugeSpec.Labels, strLt "__blockgen_target__" l.Name)) :=
  ⟨by decide,
    emitted_labels_sorted_iff (newBlockSeriesSet clusterBlock) clusterFirst gaugeSpec _
      (by decide) (by decide) (by decide)⟩

/-! ## Sample generators -/

theorem countSamples_ticks (k : Nat) :
    ∀ (g : SeriesIterator) (fuel : Nat),
      (∀ j : Nat, j < k → g.mint + ((g.tick + j : Nat) : Int) * g.opts.ScrapeInterval < g.maxt) →
      ¬ (g.mint + ((g.tick + k : Nat) : Int) * g.opts.ScrapeInterval < g.maxt) →
      k < fuel → g.countSamples fuel = some k := by
  induction k with
  | zero =>
    intro g fuel _ hstop hf
    obtain ⟨f, rfl⟩ : ∃ f, fuel = f + 1 := ⟨fuel - 1, by omega⟩
    have hn : g.Next = (false, g) := by
      unfold SeriesIterator.Next
      rw [if_neg (by simpa using hstop)]
    simp [SeriesIterator.countSamples, hn]
  | succ k ih =>
    intro g fuel hgo hstop hf
    obtain ⟨f, rfl⟩ : ∃ f, fuel = f + 1 := ⟨fuel - 1, by omega⟩
    have h0 := hgo 0 (by omega)
    have hn : g.Next = (true, { g with tick := g.tick + 1 }) := by
      unfold SeriesIterator.Next
      rw [if_pos (by simpa using h0)]
    have hrec := ih { g with tick := g.tick + 1 } f
      (by intro j hj; have := hgo (j + 1) (by omega); simpa [Nat.add_assoc, Nat.add_comm 1 j] using this)
      (by simpa [Nat.add_assoc, Nat.add_comm 1 k] using hstop)
      (by omega)
    simp [SeriesIterator.countSamples, hn, hrec]

theorem ceil_div_spec (d s : Int) (hs : 0 < s) (hd : 0 ≤ d) :
    0 ≤ ⌈(d : ℚ) / (s : ℚ)⌉ ∧ d ≤ ⌈(d : ℚ) / (s : ℚ)⌉ * s ∧
      (⌈(d : ℚ) / (s : ℚ)⌉ - 1) * s < d := by
  have hsq : (0 : ℚ) < (s : ℚ) := by exact_mod_cast hs
  have hdq : (0 : ℚ) ≤ (d : ℚ) := by exact_mod_cast hd
  refine ⟨?_, ?_, ?_⟩
  · exact Int.ceil_nonneg (div_nonneg hdq hsq.le)
  · have h1 : (d : ℚ) / (s : ℚ) ≤ (⌈(d : ℚ) / (s : ℚ)⌉ : ℚ) := Int.le_ceil _
    have h2 : (d : ℚ) ≤ (⌈(d : ℚ) / (s : ℚ)⌉ : ℚ) * (s : ℚ) := (div_le_iff₀ hsq).1 h1
    exact_mod_cast h2
  · have h1 : ((⌈(d : ℚ) / (s : ℚ)⌉ : ℚ) - 1) < (d : ℚ) / (s : ℚ) := by
      have := Int.ceil_lt_add_one ((d : ℚ) / (s : ℚ))
      linarith
    have h2 : ((⌈(d : ℚ) / (s : ℚ)⌉ : ℚ) - 1) * (s : ℚ) < (d : ℚ) := (lt_div_iff₀ hsq).1 h1
    exact_mod_cast h2

/-- The sample count of an iterator at tick 0 with a positive interval and `mint ≤ maxt`. -/
theorem countSamples_ceil (g : SeriesIterator) (ht : g.tick = 0)
    (hS : 0 < g.opts.ScrapeInterval) (hr : g.mint ≤ g.maxt) :
    g.countSamples (⌈((g.maxt - g.mint : Int) : ℚ) / (g.opts.ScrapeInterval : ℚ)⌉.toNat + 1) =
      some ⌈((g.maxt - g.mint : Int) : ℚ) / (g.opts.ScrapeInterval : ℚ)⌉.toNat := by
  obtain ⟨h0, h1, h2⟩ := ceil_div_spec (g.maxt - g.mint) g.opts.ScrapeInterval hS (by omega)
  set c := ⌈((g.maxt - g.mint : Int) : ℚ) / (g.opts.ScrapeInterval : ℚ)⌉ with hc
  have hcn : ((c.toNat : Nat) : Int) = c := Int.toNat_of_nonneg h0
  apply countSamples_ticks
  · intro j hj
    rw [ht]
    have hj' : (j : Int) ≤ c - 1 := by omega
    have : (j : Int) * g.opts.ScrapeInterval ≤ (c - 1) * g.opts.ScrapeInterval :=
      mul_le_mul_of_nonneg_right hj' hS.le
    simp only [Nat.zero_add]
    linarith
  · rw [ht]
    simp only [Nat.zero_add, hcn]
    linarith
  · omega

/-- C3: with `ScrapeInterval = S > 0` milliseconds and `mint ≤ maxt`, `Next` of the counter
generator and of the gauge generator returns true exactly `⌈(maxt - mint) / S⌉` times and
then false. -/
theorem sample_count_is_ceil (random : Rand) (mint maxt : Int) (opts : Characteristics)
    (hS : 0 < opts.ScrapeInterval) (hr : mint ≤ maxt) :
    0 ≤ ⌈((maxt - mint : Int) : ℚ) / (opts.ScrapeInterval : ℚ)⌉ ∧
    (NewCounterGen random mint maxt opts).countSamples
        (⌈((maxt - mint : Int) : ℚ) / (opts.ScrapeInterval : ℚ)⌉.toNat + 1) =
      some ⌈((maxt - mint : Int) : ℚ) / (opts.ScrapeInterval : ℚ)⌉.toNat ∧
    (NewGaugeGen random mint maxt opts).countSamples
        (⌈((maxt - mint : Int) : ℚ) / (opts.ScrapeInterval : ℚ)⌉.toNat + 1) =
      some ⌈((maxt - mint : Int) : ℚ) / (opts.ScrapeInterval : ℚ)⌉.toNat :=
  ⟨(ceil_div_spec (maxt - mint) opts.ScrapeInterval hS (by omega)).1,
    countSamples_ceil (NewCounterGen random mint maxt opts) rfl hS hr,
    countSamples_ceil (NewGaugeGen random mint maxt opts) rfl hS hr⟩

/-- Witness of `sample_count_is_ceil`, the case of the tests: `mint = 100`,
`maxt = 86400000`, interval 15 s: exactly 5760 samples for both generators. -/
theorem sample_count_is_ceil_witness :
    (0 : Int) < testCharacteristics.ScrapeInterval ∧ (100 : Int) ≤ 86400000 ∧
    (NewCounterGen ⟨1⟩ 100 86400000 testCharacteristics).countSamples 5761 = some 5760 ∧
    (NewGaugeGen ⟨1⟩ 100 86400000 testCharacteristics).countSamples 5761 = some 5760 := by
  have hc : ⌈(((86400000 : Int) - 100 : Int) : ℚ) / ((testCharacteristics.ScrapeInterval : Int) : ℚ)⌉
      = 5760 := by
    rw [Int.ceil_eq_iff]
    simp only [testCharacteristics]
    norm_num
  have h := sample_count_is_ceil ⟨1⟩ 100 86400000 testCharacteristics (by decide) (by decide)
  rw [hc] at h
  exact ⟨by decide, by decide, h.2.1, h.2.2⟩

/-! ## Helper lemmas: the shape of a worker's calls -/

theorem RunShape.cons_good (r : Option GoError) (calls : List Call) (c : Call)
    (hc : c.isGoodAppend = true) (h : RunShape r calls) : RunShape r (c :: calls) := by
  cases h with
  | quiet _ _ hq =>
    exact .quiet _ _ (by intro x hx; rcases List.mem_cons.1 hx with rfl | hx; exacts [hc, hq x hx])
  | appendFailed pre ref lset t v e rerr hq =>
    have := RunShape.appendFailed (c :: pre) ref lset t v e rerr
      (by intro x hx; rcases List.mem_cons.1 hx with rfl | hx; exacts [hc, hq x hx])
    simpa using this
  | iterFailed pre e rerr hq =>
    have := RunShape.iterFailed (c :: pre) e rerr
      (by intro x hx; rcases List.mem_cons.1 hx with rfl | hx; exacts [hc, hq x hx])
    simpa using this

theorem RunShape.append_good (r : Option GoError) (calls pre : List Call)
    (hp : ∀ c ∈ pre, c.isGoodAppend = true) (h : RunShape r calls) :
    RunShape r (pre ++ calls) := by
  induction pre with
  | nil => simpa using h
  | cons c pre ih =>
    have h1 := ih (fun x hx => hp x (List.mem_cons_of_mem _ hx))
    simpa using RunShape.cons_good _ _ c (hp c (List.mem_cons_self _ _)) h1

theorem failAppend_shape {σ : Type} (app : Appender σ) (ref : Nat) (lset : Labels)
    (smp : Sample) (err : GoError) (st : σ) :
    (failAppend app ref lset smp err st).1 = some (appendFailure err (app.Rollback st).1) ∧
    (failAppend app ref lset smp err st).2.2 =
      [.append ref lset smp.t smp.v (some err), .rollback (app.Rollback st).1] := by
  unfold failAppend appendFailure
  cases h : (app.Rollback st).1 <;> simp [GoError.Error]

theorem failIter_shape {σ : Type} (app : Appender σ) (err : GoError) (st : σ) :
    (failIter app err st).1 = some (iterFailure err (app.Rollback st).1) ∧
    (failIter app err st).2.2 = [.rollback (app.Rollback st).1] := by
  unfold failIter iterFailure
  cases h : (app.Rollback st).1 <;> simp [GoError.Error]

theorem sampleLoop_shape {σ : Type} (app : Appender σ) (lset : Labels)
    (cancel : Option (Nat × GoError)) (samples : List Sample) :
    ∀ (j ref : Nat) (st : σ),
      RunShape (sampleLoop app lset cancel samples j ref st).1
        (sampleLoop app lset cancel samples j ref st).2.2 := by
  induction samples with
  | nil => intro j ref st; exact .quiet _ _ (by simp [sampleLoop])
  | cons smp rest ih =>
    intro j ref st
    unfold sampleLoop
    cases hc : ctxErr cancel j with
    | some e => exact .quiet _ _ (by simp)
    | none =>
      cases ha : (app.Append st ref lset smp.t smp.v).1.2 with
      | some err =>
        obtain ⟨h1, h2⟩ := failAppend_shape app ref lset smp err
          (app.Append st ref lset smp.t smp.v).2
        simp only [h1, h2]
        exact RunShape.appendFailed [] ref lset smp.t smp.v err _ (by simp)
      | none =>
        exact RunShape.cons_good _ _ _ rfl (ih (j + 1) _ _)

theorem handleSeries_shape {σ : Type} (app : Appender σ) (s : SeriesData)
    (cancel : Option (Nat × GoError)) (st : σ) :
    RunShape (handleSeries app s cancel st).1 (handleSeries app s cancel st).2.2 := by
  have hs := sampleLoop_shape app s.labels cancel s.samples 0 0 st
  unfold handleSeries
  cases hr : (sampleLoop app s.labels cancel s.samples 0 0 st).1 with
  | some e => simpa [hr] using hs
  | none =>
    cases he : s.err with
    | none => simpa [hr] using hs
    | some err =>
      obtain ⟨h1, h2⟩ := failIter_shape app err
        (sampleLoop app s.labels cancel s.samples 0 0 st).2.1
      simp only [hr, h1, h2]
      rw [hr] at hs
      cases hs with
      | quiet _ _ hq => exact RunShape.iterFailed _ err _ hq

/-- A run of the outer loop that goes back to `select` has made good appends only. -/
theorem handleSeries_none_good {σ : Type} (app : Appender σ) (s : SeriesData)
    (cancel : Option (Nat × GoError)) (st : σ) (h : (handleSeries app s cancel st).1 = none) :
    ∀ c ∈ (handleSeries app s cancel st).2.2, c.isGoodAppend = true := by
  have hs := handleSeries_shape app s cancel st
  rw [h] at hs
  cases hs with
  | quiet _ _ hq => exact hq

theorem workerLoop_shape {σ : Type} (app : Appender σ) (evs : List Event) :
    ∀ st : σ, RunShape (loopErr (workerLoop app evs st).1) (workerLoop app evs st).2.2 := by
  induction evs with
  | nil => intro st; exact .quiet _ _ (by simp [workerLoop])
  | cons ev evs ih =>
    intro st
    cases ev with
    | done e => exact .quiet _ _ (by simp [workerLoop])
    | closed => exact .quiet _ _ (by simp [workerLoop])
    | recv s cancel =>
      have hs := handleSeries_shape app s cancel st
      unfold workerLoop
      cases hr : (handleSeries app s cancel st).1 with
      | some e => simpa [hr, loopErr] using hs
      | none =>
        simp only [hr]
        exact RunShape.append_good _ _ _ (handleSeries_none_good app s cancel st hr) (ih _)

theorem loopErr_some (r : Option (Option GoError)) (e : GoError) (h : loopErr r = some e) :
    r = some (some e) := by
  unfold loopErr at h
  split at h
  · rename_i e1; simp only [Option.some.injEq] at h; rw [h]
  · exact absurd h (by simp)

/-- The three ways the outer loop of a worker can have ended. -/
theorem workerLoop_cases {σ : Type} (app : Appender σ) (evs : List Event) (st : σ) :
    (∀ c ∈ (workerLoop app evs st).2.2, c.isGoodAppend = true) ∨
    (∃ pre ref lset t v e rerr, (∀ c ∈ pre, c.isGoodAppend = true) ∧
      (workerLoop app evs st).2.2 = pre ++ [.append ref lset t v (some e), .rollback rerr] ∧
      (workerLoop app evs st).1 = some (some (appendFailure e rerr))) ∨
    (∃ pre e rerr, (∀ c ∈ pre, c.isGoodAppend = true) ∧
      (workerLoop app evs st).2.2 = pre ++ [.rollback rerr] ∧
      (workerLoop app evs st).1 = some (some (iterFailure e rerr))) := by
  have hs := workerLoop_shape app evs st
  generalize hr : loopErr (workerLoop app evs st).1 = r at hs
  generalize hc : (workerLoop app evs st).2.2 = calls at hs
  cases hs with
  | quiet _ _ hq => exact Or.inl hq
  | appendFailed pre ref lset t v e rerr hq =>
    exact Or.inr (Or.inl ⟨pre, ref, lset, t, v, e, rerr, hq, rfl, loopErr_some _ _ hr⟩)
  | iterFailed pre e rerr hq =>
    exact Or.inr (Or.inr ⟨pre, e, rerr, hq, rfl, loopErr_some _ _ hr⟩)

theorem worker_ret {σ : Type} (app : Appender σ) (evs : List Event) (st : σ) :
    (worker app evs st).1 = (workerLoop app evs st).1 := by
  unfold worker
  cases h : (workerLoop app evs st).1 <;> simp [h]

theorem worker_calls_some {σ : Type} (app : Appender σ) (evs : List Event) (st : σ)
    (r : Option GoError) (h : (workerLoop app evs st).1 = some r) :
    (worker app evs st).2.2 = (workerLoop app evs st).2.2 ++
      [.commit (app.Commit (workerLoop app evs st).2.1).1] := by
  unfold worker
  simp [h]

theorem worker_calls_none {σ : Type} (app : Appender σ) (evs : List Event) (st : σ)
    (h : (workerLoop app evs st).1 = none) :
    (worker app evs st).2.2 = (workerLoop app evs st).2.2 := by
  unfold worker
  simp [h]

/-- A clean return of the outer loop comes from a closed queue. -/
theorem workerLoop_nil_closed {σ : Type} (app : Appender σ) (evs : List Event) :
    ∀ st : σ, (workerLoop app evs st).1 = some none → Event.closed ∈ evs := by
  induction evs with
  | nil => intro st h; simp [workerLoop] at h
  | cons ev evs ih =>
    intro st h
    cases ev with
    | done e => simp [workerLoop] at h
    | closed => simp
    | recv s cancel =>
      unfold workerLoop at h
      cases hr : (handleSeries app s cancel st).1 with
      | some e => simp [hr] at h
      | none =>
        simp only [hr] at h
        exact List.mem_cons_of_mem _ (ih _ h)

theorem good_not_commit (c : Call) (h : c.isGoodAppend = true) : c.isCommit = false := by
  cases c <;> simp_all [Call.isGoodAppend, Call.isCommit]

theorem good_not_rollback (c : Call) (h : c.isGoodAppend = true) : c.isRollback = false := by
  cases c <;> simp_all [Call.isGoodAppend, Call.isRollback]

theorem countP_good_rollback (l : List Call) (h : ∀ c ∈ l, c.isGoodAppend = true) :
    l.countP Call.isRollback = 0 := by
  rw [List.countP_eq_zero]
  intro c hc
  simp [good_not_rollback c (h c hc)]

/-! ## The append pipeline -/

/-- C7 (amended): a worker that returns has called `Commit` exactly once, as the last call on
its handle, on every exit path (the deferred call).  If it returns nil, the queue was closed
and `Rollback` was never called.  If `Rollback` was called, the worker returns a non-nil
error, `Rollback` was called exactly once and immediately before that `Commit`; and a failed
sink `Append` is always followed by such a `Rollback`. -/
theorem worker_commits_on_every_exit {σ : Type} (app : Appender σ) (evs : List Event) (st : σ)
    (r : Option GoError) (h : (worker app evs st).1 = some r) :
    (∃ pre cerr, (worker app evs st).2.2 = pre ++ [.commit cerr] ∧
      ∀ c ∈ pre, c.isCommit = false) ∧
    (r = none → Event.closed ∈ evs ∧ ∀ c ∈ (worker app evs st).2.2, c.isRollback = false) ∧
    ((∃ c ∈ (worker app evs st).2.2, c.isRollback = true) →
      r ≠ none ∧ (worker app evs st).2.2.countP Call.isRollback = 1 ∧
      ∃ pre rerr cerr, (worker app evs st).2.2 = pre ++ [.rollback rerr, .commit cerr]) ∧
    (∀ ref lset t v e, Call.append ref lset t v (some e) ∈ (worker app evs st).2.2 →
      ∃ c ∈ (worker app evs st).2.2, c.isRollback = true) := by
  rw [worker_ret] at h
  rw [worker_calls_some app evs st r h]
  rcases workerLoop_cases app evs st with hq | ⟨pre, ref, lset, t, v, e, rerr, hq, hc, hr⟩ |
      ⟨pre, e, rerr, hq, hc, hr⟩
  · refine ⟨⟨_, _, rfl, fun c hc => good_not_commit c (hq c hc)⟩, ?_, ?_, ?_⟩
    · intro hr
      subst hr
      refine ⟨workerLoop_nil_closed app evs st h, ?_⟩
      intro c hc
      rcases List.mem_append.1 hc with hc | hc
      · exact good_not_rollback c (hq c hc)
      · simp only [List.mem_singleton] at hc; subst hc; rfl
    · rintro ⟨c, hc, hrb⟩
      rcases List.mem_append.1 hc with hc | hc
      · rw [good_not_rollback c (hq c hc)] at hrb; exact absurd hrb (by simp)
      · simp only [List.mem_singleton] at hc; subst hc; exact absurd hrb (by simp [Call.isRollback])
    · intro ref lset t v e hm
      rcases List.mem_append.1 hm with hm | hm
      · have := hq _ hm; simp [Call.isGoodAppend] at this
      · simp at hm
  · rw [hc]
    rw [hr] at h
    have hre : r = some (appendFailure e rerr) := by simpa using h.symm
    refine ⟨⟨_, _, rfl, ?_⟩, ?_, ?_, ?_⟩
    · intro c hcm
      rcases List.mem_append.1 hcm with hcm | hcm
      · exact good_not_commit c (hq c hcm)
      · simp only [List.mem_cons, List.mem_singleton, List.not_mem_nil, or_false] at hcm
        rcases hcm with rfl | rfl <;> rfl
    · intro hn; rw [hn] at hre; exact absurd hre (by simp)
    · intro _
      refine ⟨by rw [hre]; simp, ?_, pre ++ [.append ref lset t v (some e)], rerr,
        (app.Commit (workerLoop app evs st).2.1).1, by simp⟩
      simp [List.countP_append, countP_good_rollback pre hq, List.countP_cons, Call.isRollback]
    · intro _ _ _ _ _ _
      exact ⟨.rollback rerr, by simp, rfl⟩
  · rw [hc]
    rw [hr] at h
    have hre : r = some (iterFailure e rerr) := by simpa using h.symm
    refine ⟨⟨_, _, rfl, ?_⟩, ?_, ?_, ?_⟩
    · intro c hcm
      rcases List.mem_append.1 hcm with hcm | hcm
      · exact good_not_commit c (hq c hcm)
      · simp only [List.mem_singleton] at hcm; subst hcm; rfl
    · intro hn; rw [hn] at hre; exact absurd hre (by simp)
    · intro _
      refine ⟨by rw [hre]; simp, ?_, pre, rerr,
        (app.Commit (workerLoop app evs st).2.1).1, by simp⟩
      simp [List.countP_append, countP_good_rollback pre hq, List.countP_cons, Call.isRollback]
    · intro _ _ _ _ _ _
      exact ⟨.rollback rerr, by simp, rfl⟩

/-- Witness of `worker_commits_on_every_exit`: a worker whose first `Append` fails. -/
theorem worker_commits_on_every_exit_witness :
    (worker (failingAppender 0 false) [.recv (twoSamples "a") none, .closed] 0).1 =
      some (some (.wrap "append: boom" (.leaf "boom"))) ∧
    ∃ pre cerr,
      (worker (failingAppender 0 false) [.recv (twoSamples "a") none, .closed] 0).2.2 =
        pre ++ [.commit cerr] ∧ ∀ c ∈ pre, c.isCommit = false :=
  ⟨by decide,
    (worker_commits_on_every_exit (failingAppender 0 false)
      [.recv (twoSamples "a") none, .closed] 0
      (some (.wrap "append: boom" (.leaf "boom"))) (by decide)).1⟩

/-- C7 (counterexample): a worker whose first sink `Append` fails rolls back and returns an
error, yet `Commit` is called on its handle afterwards; and a worker that finds the context
cancelled before the second sample of a series returns the context's error having called
`Commit` and not `Rollback`. -/
theorem worker_commit_after_failure :
    worker (failingAppender 0 false) [.recv (twoSamples "a") none, .closed] 0 =
      (some (some (.wrap "append: boom" (.leaf "boom"))), 1,
        [.append 0 [⟨"__blockgen_target__", "1"⟩, ⟨"__name__", "a"⟩] 0 1 (some (.leaf "boom")),
          .rollback none, .commit none]) ∧
    worker (failingAppender 9 false) [.recv (twoSamples "a") (some (1, Canceled)), .closed] 0 =
      (some (some Canceled), 1,
        [.append 0 [⟨"__blockgen_target__", "1"⟩, ⟨"__name__", "a"⟩] 0 1 none,
          .commit none]) := by
  decide

/-- C9: when a sink `Append` fails with `e`, the calls of the worker are good appends, then
that failed `Append`, then one `Rollback`, then the deferred `Commit` (so `Rollback` is called
exactly once and no further sample is applied); the worker returns a non-nil error from
which `e` is reached by unwrapping; without a rollback error its text is `append: ` followed
by the text of `e` and it unwraps to `e`; with a rollback error `re` its text is
`append: append: `, the text of `e`, `, rollback: ` and the text of `re`. -/
theorem append_failure_rolls_back {σ : Type} (app : Appender σ) (evs : List Event) (st : σ)
    (ref : Nat) (lset : Labels) (t : Int) (v : Nat) (e : GoError)
    (h : Call.append ref lset t v (some e) ∈ (worker app evs st).2.2) :
    ∃ pre rerr cerr E,
      (worker app evs st).2.2 =
        pre ++ [.append ref lset t v (some e), .rollback rerr, .commit cerr] ∧
      (∀ c ∈ pre, c.isGoodAppend = true) ∧
      (worker app evs st).1 = some (some E) ∧
      e ∈ E.chain ∧
      (rerr = none → E.Error = "append: " ++ e.Error ∧ E.Unwrap = some e) ∧
      (∀ re, rerr = some re →
        E.Error = "append: append: " ++ e.Error ++ ", rollback: " ++ re.Error ∧
        E.Unwrap.bind GoError.Unwrap = some e) := by
  have hshape := workerLoop_cases app evs st
  have hgood : ∀ l : List Call, (∀ c ∈ l, c.isGoodAppend = true) →
      Call.append ref lset t v (some e) ∉ l := by
    intro l hl hm
    have := hl _ hm
    simp [Call.isGoodAppend] at this
  cases hw : (workerLoop app evs st).1 with
  | none =>
    rw [worker_calls_none app evs st hw] at h
    rcases hshape with hq | ⟨pre, ref', lset', t', v', e', rerr, hq, hc, hr⟩ |
        ⟨pre, e', rerr, hq, hc, hr⟩
    · exact absurd h (hgood _ hq)
    · rw [hw] at hr; exact absurd hr (by simp)
    · rw [hw] at hr; exact absurd hr (by simp)
  | some r =>
    rw [worker_calls_some app evs st r hw] at h ⊢
    rw [worker_ret]
    rcases hshape with hq | ⟨pre, ref', lset', t', v', e', rerr, hq, hc, hr⟩ |
        ⟨pre, e', rerr, hq, hc, hr⟩
    · rcases List.mem_append.1 h with h | h
      · exact absurd h (hgood _ hq)
      · simp at h
    · rw [hc] at h ⊢
      have heq : Call.append ref lset t v (some e) = Call.append ref' lset' t' v' (some e') := by
        rcases List.mem_append.1 h with h | h
        · rcases List.mem_append.1 h with h | h
          · exact absurd h (hgood _ hq)
          · simpa using h
        · simp at h
      simp only [Call.append.injEq, Option.some.injEq] at heq
      obtain ⟨rfl, rfl, rfl, rfl, rfl⟩ := heq
      refine ⟨pre, rerr, (app.Commit (workerLoop app evs st).2.1).1, appendFailure e rerr,
        by simp, hq, hr, ?_, ?_, ?_⟩
      · cases rerr <;> simp [appendFailure, GoError.chain]
        · cases e <;> simp [GoError.chain]
        · cases e <;> simp [GoError.chain]
      · intro hn; subst hn; simp [appendFailure, GoError.Error, GoError.Unwrap]
      · intro re hn; subst hn
        refine ⟨?_, rfl⟩
        show "append: " ++ ("append: " ++ e.Error ++ ", rollback: " ++ re.Error) =
          "append: append: " ++ e.Error ++ ", rollback: " ++ re.Error
        have h2 : "append: " ++ "append: " = "append: append: " := by decide
        rw [← h2]
        simp only [String.append_assoc]
    · rw [hc] at h
      rcases List.mem_append.1 h with h | h
      · rcases List.mem_append.1 h with h | h
        · exact absurd h (hgood _ hq)
        · simp at h
      · simp at h

/-- Witness of `append_failure_rolls_back`: the second `Append` fails and so does `Rollback`. -/
theorem append_failure_rolls_back_witness :
    Call.append 1 [⟨"__blockgen_target__", "1"⟩, ⟨"__name__", "a"⟩] 15000 2 (some (.leaf "boom")) ∈
      (worker (failingAppender 1 true) [.recv (twoSamples "a") none, .closed] 0).2.2 ∧
    ∃ pre rerr cerr E,
      (worker (failingAppender 1 true) [.recv (twoSamples "a") none, .closed] 0).2.2 =
        pre ++ [.append 1 [⟨"__blockgen_target__", "1"⟩, ⟨"__name__", "a"⟩] 15000 2
          (some (.leaf "boom")), .rollback rerr, .commit cerr] ∧
      (∀ c ∈ pre, c.isGoodAppend = true) ∧
      (worker (failingAppender 1 true) [.recv (twoSamples "a") none, .closed] 0).1 =
        some (some E) ∧
      GoError.leaf "boom" ∈ E.chain ∧
      (rerr = none → E.Error = "append: " ++ (GoError.leaf "boom").Error ∧
        E.Unwrap = some (.leaf "boom")) ∧
      (∀ re, rerr = some re →
        E.Error = "append: append: " ++ (GoError.leaf "boom").Error ++ ", rollback: " ++ re.Error ∧
        E.Unwrap.bind GoError.Unwrap = some (.leaf "boom")) :=
  ⟨by decide,
    append_failure_rolls_back (failingAppender 1 true) [.recv (twoSamples "a") none, .closed] 0
      1 [⟨"__blockgen_target__", "1"⟩, ⟨"__name__", "a"⟩] 15000 2 (.leaf "boom") (by decide)⟩

theorem Append1_handed_pos {σ : Type} (app : Appender σ) (enumErr : Option GoError)
    (s : SeriesData) (rest : List SeriesData) (st : σ) :
    1 ≤ (Append1 app enumErr (s :: rest) st).handed := by
  unfold Append1
  cases h : (handleSeries app s none st).1 <;> simp [h]

/-- C8 (amended), for one worker and a caller context that is never cancelled: the number of
series handed to the worker is at most the number enumerated; if it is smaller, the worker
has failed and `Append` returns the error `context done: context canceled`, which wraps the
context's error and not the worker's failure; if all series were handed off, `Append`
returns the enumeration error when there is one and the worker's result otherwise.  In
particular, with two or more series and a sink `Append` that fails on the first sample of
the first series, `Append` returns `context done: context canceled` while the worker's own
result is the wrapped sink error. -/
theorem Append1_result {σ : Type} (app : Appender σ) (enumErr : Option GoError)
    (series : List SeriesData) (st : σ) :
    (Append1 app enumErr series st).handed ≤ series.length ∧
    ((Append1 app enumErr series st).handed < series.length →
      (Append1 app enumErr series st).workerRet ≠ none ∧
      (Append1 app enumErr series st).ret =
        some (.wrap "context done: context canceled" Canceled)) ∧
    ((Append1 app enumErr series st).handed = series.length →
      (Append1 app enumErr series st).ret =
        match enumErr with
        | some e => some e
        | none => (Append1 app enumErr series st).workerRet) ∧
    (∀ lset smp smps ierr s2 rest e, series = ⟨lset, smp :: smps, ierr⟩ :: s2 :: rest →
      (app.Append st 0 lset smp.t smp.v).1.2 = some e →
      (Append1 app enumErr series st).ret =
        some (.wrap "context done: context canceled" Canceled) ∧
      (Append1 app enumErr series st).workerRet =
        some (appendFailure e (app.Rollback (app.Append st 0 lset smp.t smp.v).2).1)) := by
  have hmsg : "context done: " ++ Canceled.Error = "context done: context canceled" := by decide
  refine ⟨?_, ?_, ?_, ?_⟩
  · induction series generalizing st with
    | nil => simp [Append1]
    | cons s rest ih =>
      unfold Append1
      cases h : (handleSeries app s none st).1 with
      | some e => simp [h]
      | none =>
        have := ih (handleSeries app s none st).2.1
        simp only [h, List.length_cons]
        omega
  · induction series generalizing st with
    | nil => intro h; simp [Append1] at h
    | cons s rest ih =>
      unfold Append1
      cases h : (handleSeries app s none st).1 with
      | some e =>
        cases rest with
        | nil => intro hl; simp [h] at hl
        | cons s2 rest => intro _; simp [h, hmsg]
      | none =>
        intro hl
        simp only [h, List.length_cons] at hl ⊢
        exact ih (handleSeries app s none st).2.1 (by omega)
  · induction series generalizing st with
    | nil => intro _; cases enumErr <;> simp [Append1]
    | cons s rest ih =>
      unfold Append1
      cases h : (handleSeries app s none st).1 with
      | some e =>
        cases rest with
        | nil => intro _; cases enumErr <;> simp [h]
        | cons s2 rest => intro hl; simp [h] at hl
      | none =>
        intro hl
        simp only [h, List.length_cons] at hl ⊢
        exact ih (handleSeries app s none st).2.1 (by omega)
  · intro lset smp smps ierr s2 rest e hs ha
    subst hs
    have hsl : sampleLoop app lset none (smp :: smps) 0 0 st =
        failAppend app 0 lset smp e (app.Append st 0 lset smp.t smp.v).2 := by
      unfold sampleLoop
      simp [ctxErr, ha]
    have hh : (handleSeries app ⟨lset, smp :: smps, ierr⟩ none st).1 =
        some (appendFailure e (app.Rollback (app.Append st 0 lset smp.t smp.v).2).1) := by
      unfold handleSeries
      simp only [hsl, (failAppend_shape app 0 lset smp e _).1]
    unfold Append1
    simp [hh, hmsg]

/-- Witness of `Append1_result`: the concrete case with two series. -/
theorem Append1_result_witness :
    (Append1 (failingAppender 0 false) none [twoSamples "a", twoSamples "b"] 0).handed < 2 ∧
    (Append1 (failingAppender 0 false) none [twoSamples "a", twoSamples "b"] 0).workerRet ≠ none ∧
    (Append1 (failingAppender 0 false) none [twoSamples "a", twoSamples "b"] 0).ret =
      some (.wrap "context done: context canceled" Canceled) :=
  ⟨by decide,
    (Append1_result (failingAppender 0 false) none [twoSamples "a", twoSamples "b"] 0).2.1
      (by decide)⟩

/-- C8 (counterexample): one worker, two series, a sink whose `Append` fails on the first
sample of the first series, no enumeration error.  The worker fails with `append: boom`,
which wraps the sink's error, but `Append` returns `context done: context canceled`, from
which neither the worker's failure nor the sink's error is reached by unwrapping. -/
theorem Append1_returns_context_done :
    (Append1 (failingAppender 0 false) none [twoSamples "a", twoSamples "b"] 0).workerRet =
      some (.wrap "append: boom" (.leaf "boom")) ∧
    (Append1 (failingAppender 0 false) none [twoSamples "a", twoSamples "b"] 0).ret =
      some (.wrap "context done: context canceled" (.leaf "context canceled")) ∧
    GoError.wrap "append: boom" (.leaf "boom") ∉
      (GoError.wrap "context done: context canceled" (.leaf "context canceled")).chain ∧
    GoError.leaf "boom" ∉
      (GoError.wrap "context done: context canceled" (.leaf "context canceled")).chain := by
  decide

end Thanosbench
